import Mathlib

/-!
Verification of the job_search repository's core pipeline:
title normalization and deduplication (src/job_analyzer.py),
rule-based remote detection (src/filter_jobs_by_location.py),
the job store (src/db/jobs.py, src/db/schema.py, src/db/feeds.py,
src/db/migrate_003_rename_reviewed_to_interested.py) and the RSS
fetch pass (src/run_pipeline.py, src/rss_job_feed.py).

Python regular expressions are embedded as explicit backtracking
matchers over `List Char`; Python's `re` module character classes
`\s` and `\w` are modelled over their ASCII ranges, and `$` is
modelled as end-of-string (Python's `$` would also match just before
a single trailing newline, which cannot occur in the job-title and
description strings these patterns are applied to).  Timestamps and
dates are modelled as natural numbers (ISO-8601 strings compare in
the same order as the instants they denote); SQLite tables are
modelled as lists of rows.
-/

set_option maxRecDepth 8192

namespace JobSearch

/-- Python whitespace (`\s` in `re`, ASCII range). -/
def isPySpace (c : Char) : Bool :=
  c = ' ' || c = '\t' || c = '\n' || c = '\r' || c = '\x0b' || c = '\x0c'

/-- Python word character (`\w` in `re`), ASCII range. -/
def isWordChar (c : Char) : Bool :=
  c.isAlphanum || c = '_'

/-- Character class `[\w\s]`. -/
def isWordOrSpace (c : Char) : Bool := isWordChar c || isPySpace c

/-- Regex `p+` for a character class `p`: consume one or more characters
satisfying `p`, then continue with `k`, trying every split (backtracking). -/
def clsPlus (p : Char → Bool) : List Char → (List Char → Bool) → Bool
  | [], _ => false
  | c :: cs, k => p c && (k cs || clsPlus p cs k)

/-- Regex `p*` for a character class `p`. -/
def clsStar (p : Char → Bool) : List Char → (List Char → Bool) → Bool
  | [], k => k []
  | c :: cs, k => k (c :: cs) || (p c && clsStar p cs k)

/-- Match a literal sequence of characters, then continue with `k`. -/
def lit : List Char → List Char → (List Char → Bool) → Bool
  | [], cs, k => k cs
  | _ :: _, [], _ => false
  | l :: ls, c :: cs, k => c = l && lit ls cs k

/-- Regex `\w{2}`: exactly two word characters. -/
def word2 : List Char → (List Char → Bool) → Bool
  | a :: b :: cs, k => isWordChar a && isWordChar b && k cs
  | _, _ => false

/-- Regex `(\s*-.*)?$`: the optional trailing group of rule 1 (`.` does not
match a newline). -/
def r1Tail (cs : List Char) : Bool :=
  cs.isEmpty ||
    clsStar isPySpace cs (fun cs1 =>
      match cs1 with
      | '-' :: cs2 => cs2.all (fun c => c ≠ '\n')
      | _ => false)

/-- Full match of rule 1 of `normalize_title`:
`\s+in\s+[\w\s]+,\s*\w{2}(\s*-.*)?$`. -/
def r1Match (cs : List Char) : Bool :=
  clsPlus isPySpace cs (fun cs1 =>
    lit ['i', 'n'] cs1 (fun cs2 =>
      clsPlus isPySpace cs2 (fun cs3 =>
        clsPlus isWordOrSpace cs3 (fun cs4 =>
          match cs4 with
          | ',' :: cs5 =>
            clsStar isPySpace cs5 (fun cs6 => word2 cs6 r1Tail)
          | _ => false))))

/-- Full match of rule 2 of `normalize_title`: `\s*\([\w\s]+,\s*\w{2}\)\s*$`. -/
def r2Match (cs : List Char) : Bool :=
  clsStar isPySpace cs (fun cs1 =>
    match cs1 with
    | '(' :: cs2 =>
      clsPlus isWordOrSpace cs2 (fun cs3 =>
        match cs3 with
        | ',' :: cs4 =>
          clsStar isPySpace cs4 (fun cs5 =>
            word2 cs5 (fun cs6 =>
              match cs6 with
              | ')' :: cs7 => clsStar isPySpace cs7 (fun cs8 => cs8.isEmpty)
              | _ => false))
        | _ => false)
    | _ => false)

/-- Full match of rule 3 of `normalize_title`: `\s+in\s+United States$`. -/
def r3Match (cs : List Char) : Bool :=
  clsPlus isPySpace cs (fun cs1 =>
    lit ['i', 'n'] cs1 (fun cs2 =>
      clsPlus isPySpace cs2 (fun cs3 =>
        lit "United States".data cs3 (fun cs4 => cs4.isEmpty))))

/-- `re.sub(pat, "", s)` for a `$`-anchored pattern: delete the suffix that
starts at the leftmost position from which `pat` matches through to the end
(Python scans candidate start positions left to right). -/
def ruleSub (m : List Char → Bool) : List Char → List Char
  | [] => []
  | c :: cs => if m (c :: cs) then [] else c :: ruleSub m cs

/-- Drop leading whitespace. -/
def trimStart (cs : List Char) : List Char := cs.dropWhile isPySpace

/-- Drop trailing whitespace. -/
def trimEnd (cs : List Char) : List Char := (cs.reverse.dropWhile isPySpace).reverse

/-- Python `str.strip()` (ASCII whitespace). -/
def pyStrip (cs : List Char) : List Char := trimEnd (trimStart cs)

/-- `normalize_title` from src/job_analyzer.py: apply the three stripping
rules in order, then strip surrounding whitespace. -/
def normalize_title (title : String) : String :=
  String.mk (pyStrip (ruleSub r3Match (ruleSub r2Match (ruleSub r1Match title.data))))

/-!
Rule-based remote detection, src/filter_jobs_by_location.py.

`re.IGNORECASE` is modelled by lowercasing the input (ASCII case folding;
the patterns contain only ASCII letters) and matching lowercase literals.
A `re.search` is existence of a match at some start position; positions are
scanned carrying the previous character so that `\b` can be tested.
-/

/-- `\b` holds before a word character iff the previous character (if any)
is not a word character. -/
def boundaryBefore : Option Char → Bool
  | none => true
  | some c => !isWordChar c

/-- `\b` holds after a word character iff the next character (if any)
is not a word character. -/
def boundaryNext : List Char → Bool
  | [] => true
  | c :: _ => !isWordChar c

/-- Search for `\bw\b` (a whole word `w` of word characters) in the rest of
the string; `prev` is the character just before the current position. -/
def scanWord (w : List Char) : Option Char → List Char → Bool
  | _, [] => false
  | prev, c :: cs =>
    (boundaryBefore prev && lit w (c :: cs) boundaryNext) ||
      (c ≠ '\n' && scanWord w (some c) cs)

/-- One alternative of `REMOTE_NEGATIVE` matching at the current position:
`not\s+(?:a\s+)?remote`. -/
def negAlt1 (cs : List Char) : Bool :=
  lit "not".data cs (fun cs1 =>
    clsPlus isPySpace cs1 (fun cs2 =>
      lit "remote".data cs2 (fun _ => true) ||
        lit "a".data cs2 (fun cs3 =>
          clsPlus isPySpace cs3 (fun cs4 =>
            lit "remote".data cs4 (fun _ => true)))))

/-- `not\s+offer\s+remote` matching at the current position. -/
def negAlt2 (cs : List Char) : Bool :=
  lit "not".data cs (fun cs1 =>
    clsPlus isPySpace cs1 (fun cs2 =>
      lit "offer".data cs2 (fun cs3 =>
        clsPlus isPySpace cs3 (fun cs4 =>
          lit "remote".data cs4 (fun _ => true)))))

/-- `remote\s+(?:operations?|assistance|sensing|control)` matching at the
current position (the optional `s` of `operations?` cannot affect whether a
match exists, so it is not represented). -/
def negAlt3 (cs : List Char) : Bool :=
  lit "remote".data cs (fun cs1 =>
    clsPlus isPySpace cs1 (fun cs2 =>
      lit "operation".data cs2 (fun _ => true) ||
        lit "assistance".data cs2 (fun _ => true) ||
        lit "sensing".data cs2 (fun _ => true) ||
        lit "control".data cs2 (fun _ => true)))

/-- Scan all start positions for a `REMOTE_NEGATIVE` alternative. -/
def negScan : List Char → Bool
  | [] => false
  | c :: cs => negAlt1 (c :: cs) || negAlt2 (c :: cs) || negAlt3 (c :: cs) || negScan cs

/-- `REMOTE_NEGATIVE.search` from src/filter_jobs_by_location.py. -/
def remoteNegativeSearch (s : String) : Bool :=
  negScan (s.data.map Char.toLower)

/-- One alternative of `REMOTE_POSITIVE` matching at the current position
(`prev` is the character before the position, for `\b`). -/
def posAlt (prev : Option Char) (cs : List Char) : Bool :=
  -- fully\s+remote
  lit "fully".data cs (fun cs1 =>
    clsPlus isPySpace cs1 (fun cs2 => lit "remote".data cs2 (fun _ => true))) ||
  -- location\s*:\s*remote
  lit "location".data cs (fun cs1 =>
    clsStar isPySpace cs1 (fun cs2 =>
      lit ":".data cs2 (fun cs3 =>
        clsStar isPySpace cs3 (fun cs4 => lit "remote".data cs4 (fun _ => true))))) ||
  -- role\s+(?:type|is)\s*:\s*remote
  lit "role".data cs (fun cs1 =>
    clsPlus isPySpace cs1 (fun cs2 =>
      (lit "type".data cs2 (fun cs3 =>
        clsStar isPySpace cs3 (fun cs4 =>
          lit ":".data cs4 (fun cs5 =>
            clsStar isPySpace cs5 (fun cs6 => lit "remote".data cs6 (fun _ => true)))))) ||
      (lit "is".data cs2 (fun cs3 =>
        clsStar isPySpace cs3 (fun cs4 =>
          lit ":".data cs4 (fun cs5 =>
            clsStar isPySpace cs5 (fun cs6 => lit "remote".data cs6 (fun _ => true)))))))) ||
  -- remote\s+(?:position|role|work|opportunity|\()
  lit "remote".data cs (fun cs1 =>
    clsPlus isPySpace cs1 (fun cs2 =>
      lit "position".data cs2 (fun _ => true) ||
        lit "role".data cs2 (fun _ => true) ||
        lit "work".data cs2 (fun _ => true) ||
        lit "opportunity".data cs2 (fun _ => true) ||
        lit "(".data cs2 (fun _ => true))) ||
  -- \bremote\b.*\bUSA\b   (`.` does not match a newline; after "remote" the
  -- previous character for the scan is its final letter)
  (boundaryBefore prev &&
    lit "remote".data cs (fun rest =>
      boundaryNext rest && scanWord "usa".data (some 'e') rest)) ||
  -- \bUSA\b.*\bremote\b
  (boundaryBefore prev &&
    lit "usa".data cs (fun rest =>
      boundaryNext rest && scanWord "remote".data (some 'a') rest)) ||
  -- (?:100%|completely|entirely)\s+remote
  ((lit "100%".data cs (fun cs1 =>
      clsPlus isPySpace cs1 (fun cs2 => lit "remote".data cs2 (fun _ => true)))) ||
    (lit "completely".data cs (fun cs1 =>
      clsPlus isPySpace cs1 (fun cs2 => lit "remote".data cs2 (fun _ => true)))) ||
    (lit "entirely".data cs (fun cs1 =>
      clsPlus isPySpace cs1 (fun cs2 => lit "remote".data cs2 (fun _ => true))))) ||
  -- listed\s+as\s+remote
  lit "listed".data cs (fun cs1 =>
    clsPlus isPySpace cs1 (fun cs2 =>
      lit "as".data cs2 (fun cs3 =>
        clsPlus isPySpace cs3 (fun cs4 => lit "remote".data cs4 (fun _ => true))))) ||
  -- \bremote\s+if\s+located
  (boundaryBefore prev &&
    lit "remote".data cs (fun cs1 =>
      clsPlus isPySpace cs1 (fun cs2 =>
        lit "if".data cs2 (fun cs3 =>
          clsPlus isPySpace cs3 (fun cs4 => lit "located".data cs4 (fun _ => true))))))

/-- Scan all start positions for a `REMOTE_POSITIVE` alternative. -/
def posScan : Option Char → List Char → Bool
  | _, [] => false
  | prev, c :: cs => posAlt prev (c :: cs) || posScan (some c) cs

/-- `REMOTE_POSITIVE.search` from src/filter_jobs_by_location.py. -/
def remotePositiveSearch (s : String) : Bool :=
  posScan none (s.data.map Char.toLower)

/-- `\bremote\b` matching at the current position from `_REMOTE_TITLE_RE`. -/
def titleRemoteScan : Option Char → List Char → Bool
  | _, [] => false
  | prev, c :: cs =>
    (boundaryBefore prev && lit "remote".data (c :: cs) boundaryNext) ||
      titleRemoteScan (some c) cs

/-- `_REMOTE_TITLE_RE.search` from src/filter_jobs_by_location.py. -/
def remoteTitleSearch (s : String) : Bool :=
  titleRemoteScan none (s.data.map Char.toLower)

/-- `is_truly_remote(description, title="")` from
src/filter_jobs_by_location.py. -/
def is_truly_remote (description : String) (title : String := "") : Bool :=
  if title ≠ "" && remoteTitleSearch title && !remoteNegativeSearch title then
    true
  else if description = "" then
    false
  else
    remotePositiveSearch description && !remoteNegativeSearch description

/-!
The database model: `sources`, `feeds` and `jobs` tables (src/db/schema.py)
as lists of rows, with the CRUD operations of src/db/jobs.py and
src/db/feeds.py.  `AUTOINCREMENT` surrogate keys are modelled by explicit
`next…Id` counters.  The `created_at`/`updated_at` audit columns (and the
trigger touching `updated_at`) are not modelled; no claim concerns them.
`posted_date` / `last_fetch` ISO-8601 strings are modelled as `Option Nat`
(order-isomorphic to the instants they denote); `score REAL` is modelled
as `Option ℚ`.
-/

/-- A row of the `sources` table. -/
structure SourceRow where
  id : Nat
  name : String
  deriving DecidableEq

/-- A row of the `feeds` table. -/
structure FeedRow where
  id : Nat
  name : String
  url : Option String := none
  sourceId : Option Nat := none
  lastFetch : Option Nat := none
  deriving DecidableEq

/-- A row of the `jobs` table (src/db/schema.py). -/
structure JobRow where
  id : Nat
  title : String
  url : String
  description : Option String := none
  postedDate : Option Nat := none
  sourceId : Option Nat := none
  feedId : Option Nat := none
  score : Option ℚ := none
  scoreRationale : Option String := none
  status : String := "new"
  locationLabel : Option String := none
  jobType : Option String := none
  payRange : Option String := none
  contractDuration : Option String := none
  resumeMd : Option String := none
  resumePdfPath : Option String := none
  coverLetterMd : Option String := none
  coverLetterPdfPath : Option String := none
  deriving DecidableEq

/-- The whole database. -/
structure DBState where
  sources : List SourceRow := []
  feeds : List FeedRow := []
  jobs : List JobRow := []
  nextSourceId : Nat := 1
  nextFeedId : Nat := 1
  nextJobId : Nat := 1
  deriving DecidableEq

/-- `get_or_create_source` from src/db/feeds.py. -/
def get_or_create_source (name : String) (st : DBState) : Nat × DBState :=
  match st.sources.find? (fun s => s.name == name) with
  | some s => (s.id, st)
  | none =>
    (st.nextSourceId,
      { st with
          sources := st.sources ++ [⟨st.nextSourceId, name⟩],
          nextSourceId := st.nextSourceId + 1 })

/-- `get_or_create_feed` from src/db/feeds.py: look up by url first, then by
name (backfilling a NULL url), else insert. -/
def get_or_create_feed (name : String) (url : Option String)
    (sourceId : Option Nat) (st : DBState) : Nat × DBState :=
  match url.bind (fun u => st.feeds.find? (fun f => f.url == some u)) with
  | some f => (f.id, st)
  | none =>
    match st.feeds.find? (fun f => f.name == name) with
    | some f =>
      (f.id,
        match url with
        | some u =>
          { st with
              feeds := st.feeds.map (fun g =>
                if g.id == f.id && g.url == none then { g with url := some u }
                else g) }
        | none => st)
    | none =>
      (st.nextFeedId,
        { st with
            feeds := st.feeds ++
              [{ id := st.nextFeedId, name := name, url := url,
                 sourceId := sourceId }],
            nextFeedId := st.nextFeedId + 1 })

/-- The keyword arguments of `upsert_job` (src/db/jobs.py). -/
structure UpsertArgs where
  title : String
  url : String
  description : Option String := none
  postedDate : Option Nat := none
  source : Option String := none
  feed : Option String := none
  feedUrl : Option String := none
  deriving DecidableEq

/-- The first half of `upsert_job` (src/db/jobs.py): resolve the `source`
and `feed` names to foreign-key ids, creating provenance rows as needed. -/
def resolveProvenance (a : UpsertArgs) (st : DBState) :
    (Option Nat × Option Nat) × DBState :=
  let sr : Option Nat × DBState :=
    match a.source with
    | some s => let r := get_or_create_source s st; (some r.1, r.2)
    | none => (none, st)
  let fr : Option Nat × DBState :=
    match a.feed with
    | some f => let r := get_or_create_feed f a.feedUrl sr.1 sr.2; (some r.1, r.2)
    | none => (none, sr.2)
  ((sr.1, fr.1), fr.2)

/-- The second half of `upsert_job`:
`INSERT ... ON CONFLICT(url) DO UPDATE SET title, description, posted_date,
source_id, feed_id RETURNING *` — the conflicting row keeps every other
column. -/
def upsertRow (a : UpsertArgs) (sid fid : Option Nat) (st : DBState) :
    JobRow × DBState :=
  match st.jobs.find? (fun j => j.url == a.url) with
  | some j =>
    let j' := { j with
                  title := a.title, description := a.description,
                  postedDate := a.postedDate, sourceId := sid, feedId := fid }
    (j', { st with
             jobs := st.jobs.map (fun g => if g.url == a.url then j' else g) })
  | none =>
    let j : JobRow :=
      { id := st.nextJobId, title := a.title, url := a.url,
        description := a.description, postedDate := a.postedDate,
        sourceId := sid, feedId := fid }
    (j, { st with jobs := st.jobs ++ [j], nextJobId := st.nextJobId + 1 })

/-- `upsert_job` from src/db/jobs.py. -/
def upsert_job (a : UpsertArgs) (st : DBState) : JobRow × DBState :=
  let rp := resolveProvenance a st
  upsertRow a rp.1.1 rp.1.2 rp.2

/-- `delete_job` from src/db/jobs.py (`DELETE FROM jobs WHERE id = ?`). -/
def deleteJobRow (jobId : Nat) (st : DBState) : DBState :=
  { st with jobs := st.jobs.filter (fun j => j.id != jobId) }

/-- The `status` CHECK of the `jobs` table as created by src/db/schema.py. -/
def statusCheckSchema (s : String) : Bool :=
  s == "new" || s == "reviewed" || s == "applied" || s == "rejected" ||
    s == "offer"

/-- The `status` CHECK of the `jobs` table as rebuilt by
src/db/migrate_003_rename_reviewed_to_interested.py. -/
def statusCheckMigrated (s : String) : Bool :=
  s == "new" || s == "interested" || s == "passed" || s == "applied" ||
    s == "rejected" || s == "offer"

/-- The status enum named by the specification (§3). -/
def specStatusEnum : List String :=
  ["new", "interested", "passed", "applied", "rejected", "offer"]

/-- The `score` CHECK constraint of the `jobs` table:
`score IS NULL OR (score >= 0 AND score <= 10)` (identical in
src/db/schema.py and in migration 003). -/
def scoreCheck : Option ℚ → Bool
  | none => true
  | some q => decide (0 ≤ q) && decide (q ≤ 10)

/-- The outcome of a guarded SQLite write: success, or an `IntegrityError`
raised by a CHECK constraint (in which case the statement had no effect). -/
inductive WriteResult (α : Type) where
  | ok : α → WriteResult α
  | integrityError : String → WriteResult α
  deriving DecidableEq

/-- `update_status` from src/db/jobs.py
(`UPDATE jobs SET status = ? WHERE id = ? RETURNING *`), parameterized by
the table's CHECK constraint: an update violating it raises
`IntegrityError` and leaves the row unchanged. -/
def update_status (check : String → Bool) (jobId : Nat) (status : String)
    (st : DBState) : WriteResult (Option JobRow × DBState) :=
  match st.jobs.find? (fun j => j.id == jobId) with
  | none => .ok (none, st)
  | some j =>
    if check status then
      let j' := { j with status := status }
      .ok (some j',
        { st with jobs := st.jobs.map (fun g => if g.id == jobId then j' else g) })
    else
      .integrityError "CHECK constraint failed: status"

/-- `update_score` from src/db/jobs.py
(`UPDATE jobs SET score = ?, score_rationale = ? WHERE id = ? RETURNING *`):
a score outside the CHECK raises `IntegrityError` and leaves the row
unchanged; no clamping happens anywhere. -/
def update_score (jobId : Nat) (score : Option ℚ) (rationale : Option String)
    (st : DBState) : WriteResult (Option JobRow × DBState) :=
  match st.jobs.find? (fun j => j.id == jobId) with
  | none => .ok (none, st)
  | some j =>
    if scoreCheck score then
      let j' := { j with score := score, scoreRationale := rationale }
      .ok (some j',
        { st with jobs := st.jobs.map (fun g => if g.id == jobId then j' else g) })
    else
      .integrityError "CHECK constraint failed: score"

/-- `set_last_fetch` from src/db/feeds.py: update the feed row with this URL,
or insert a minimal row (named after the URL) if none exists. -/
def set_last_fetch (feedUrl : String) (lastFetch : Nat) (st : DBState) : DBState :=
  if st.feeds.any (fun f => f.url == some feedUrl) then
    { st with
        feeds := st.feeds.map (fun f =>
          if f.url == some feedUrl then { f with lastFetch := some lastFetch }
          else f) }
  else
    { st with
        feeds := st.feeds ++
          [{ id := st.nextFeedId, name := feedUrl, url := some feedUrl,
             lastFetch := some lastFetch }],
        nextFeedId := st.nextFeedId + 1 }

/-- The cursor lookup on a feeds table: the `last_fetch` of the row whose
`url` is `u` (if any). -/
def cursorOf (feeds : List FeedRow) (u : String) : Option Nat :=
  match feeds.find? (fun f => f.url == some u) with
  | some f => f.lastFetch
  | none => none

/-- `get_all_last_fetches` from src/db/feeds.py as a lookup function:
the `{feed_url: last_fetch}` mapping restricted to feeds with a URL and a
recorded timestamp. -/
def get_all_last_fetches (st : DBState) (u : String) : Option Nat :=
  cursorOf st.feeds u

/-!
Deduplication, src/job_analyzer.py `deduplicate_jobs`.

Python's `list.sort` is stable; it is modelled by a stable insertion sort.
A descending sort (`reverse=True`) keeps the original order of equal keys,
modelled by sorting with the reversed comparison.  The `clusters[-1]`
append-in-place of the source is modelled by accumulating clusters
most-recent-first and reversing at the end.
-/

/-- Code-point lexicographic comparison of character lists: the order both
of Python `sorted` on strings and of SQLite's BINARY collation. -/
def charListLe : List Char → List Char → Bool
  | [], _ => true
  | _ :: _, [] => false
  | a :: as, b :: bs =>
    if a.toNat < b.toNat then true
    else if b.toNat < a.toNat then false
    else charListLe as bs

/-- String comparison by code points. -/
def pyStrLe (a b : String) : Bool := charListLe a.data b.data

/-- Insert `x` before the first element `y` with `le x y` (so equal keys
keep their original relative order — a stable sort's building block). -/
def insSorted (le : α → α → Bool) (x : α) : List α → List α
  | [] => [x]
  | y :: ys => if le x y then x :: y :: ys else y :: insSorted le x ys

/-- Stable insertion sort, the model of Python's stable `list.sort`. -/
def stableSort (le : α → α → Bool) : List α → List α
  | [] => []
  | x :: xs => insSorted le x (stableSort le xs)

/-- The per-job data `deduplicate_jobs` selects:
`SELECT id, title, posted_date, LENGTH(description) AS desc_len`
(with `desc_len or 0` for NULL). -/
structure DJob where
  id : Nat
  title : String
  postedDate : Option Nat
  descLen : Nat
  deriving DecidableEq

/-- `parse_date` inside `deduplicate_jobs`: a missing (or unparseable) date
sorts as `datetime.min`, modelled as `0` (real dates are encoded as positive
numbers). -/
def parseDate : Option Nat → Nat
  | none => 0
  | some d => d

/-- The row `deduplicate_jobs` builds for a job. -/
def djobOf (j : JobRow) : DJob :=
  { id := j.id, title := j.title, postedDate := j.postedDate,
    descLen := (j.description.map String.length).getD 0 }

/-- The date of a cluster's first posting (`clusters[-1][0]["posted_date"]`). -/
def clusterStartDate : List DJob → Nat
  | [] => 0
  | j :: _ => parseDate j.postedDate

/-- One step of the greedy clustering, on the reversed clusters accumulator
(most recent cluster first): the posting joins the open cluster iff its date
is within `windowDays` days of the date of that cluster's first posting,
else it starts a new cluster. -/
def clusterStep (windowDays : Nat) (acc : List (List DJob)) (j : DJob) :
    List (List DJob) :=
  match acc with
  | c :: rest =>
    if (parseDate j.postedDate : Int) - clusterStartDate c ≤ (windowDays : Int) then
      (c ++ [j]) :: rest
    else
      [j] :: c :: rest
  | [] => [[j]]

/-- The time-window clustering of a date-sorted group. -/
def clustersOf (windowDays : Nat) (jobs : List DJob) : List (List DJob) :=
  (jobs.foldl (clusterStep windowDays) []).reverse

/-- The per-cluster outcome: the kept survivor and the deleted duplicates. -/
structure Decision where
  keep : DJob
  dupes : List DJob
  deriving DecidableEq

/-- Comparison for `cluster.sort(key=lambda j: j["desc_len"], reverse=True)`:
descending by description length, stable. -/
def descLenGe (a b : DJob) : Bool := decide (b.descLen ≤ a.descLen)

/-- Resolve a cluster: sort by descending description length (stable) and
keep the head (`keep = cluster[0]`, `dupes = cluster[1:]`). -/
def clusterDecision (c : List DJob) : Decision :=
  match stableSort descLenGe c with
  | [] => { keep := ⟨0, "", none, 0⟩, dupes := [] }
  | k :: ds => { keep := k, dupes := ds }

/-- Group rows by normalized title, keys in first-encounter order and rows
in list order within a group (Python `defaultdict`). -/
def addToGroup (k : String) (x : DJob) :
    List (String × List DJob) → List (String × List DJob)
  | [] => [(k, [x])]
  | (k', xs) :: gs =>
    if k' == k then (k', xs ++ [x]) :: gs else (k', xs) :: addToGroup k x gs

/-- The `groups` dict of `deduplicate_jobs`, built from the rows in
`ORDER BY title` order. -/
def dedupGroups (st : DBState) : List (String × List DJob) :=
  ((stableSort (fun a b => pyStrLe a.title b.title) (st.jobs.map djobOf)).foldl
    (fun gs r => addToGroup (normalize_title r.title) r gs) [])

/-- `sorted(groups.items())`: groups in ascending key order. -/
def sortedGroups (st : DBState) : List (String × List DJob) :=
  stableSort (fun a b => pyStrLe a.1 b.1) (dedupGroups st)

/-- Sort a group by parsed posted date (stable) and cluster it. -/
def clustersOfGroup (windowDays : Nat) (g : List DJob) : List (List DJob) :=
  clustersOf windowDays
    (stableSort (fun a b => decide (parseDate a.postedDate ≤ parseDate b.postedDate)) g)

/-- All keep/delete decisions of one group: one per cluster of size ≥ 2. -/
def groupDecisions (windowDays : Nat) (g : List DJob) : List Decision :=
  (((clustersOfGroup windowDays g).filter (fun c => 2 ≤ c.length)).map
    clusterDecision)

/-- All keep/delete decisions of a `deduplicate_jobs` run (groups of size 1
are skipped). -/
def dedupDecisions (windowDays : Nat) (st : DBState) : List Decision :=
  (((sortedGroups st).filter (fun g => 2 ≤ g.2.length)).map
    (fun g => groupDecisions windowDays g.2)).flatten

/-- The `stats` dict returned by `deduplicate_jobs`. -/
structure DedupStats where
  groups : Nat := 0
  duplicates : Nat := 0
  deleted : Nat := 0
  deriving DecidableEq

/-- `deduplicate_jobs(dry_run, window_days)` from src/job_analyzer.py.
`groups` counts groups of size ≥ 2; `duplicates` counts all `dupes`;
`delete_job` runs — and `stats["deleted"]` is incremented — only when not
`dry_run`.  Returns the stats, the printed keep/delete decisions, and the
resulting database. -/
def deduplicate_jobs (dryRun : Bool) (windowDays : Nat) (st : DBState) :
    DedupStats × List Decision × DBState :=
  let ds := dedupDecisions windowDays st
  let dupCount := (ds.map (fun d => d.dupes.length)).sum
  let stats : DedupStats :=
    { groups := ((sortedGroups st).filter (fun g => 2 ≤ g.2.length)).length,
      duplicates := dupCount,
      deleted := if dryRun then 0 else dupCount }
  let st' :=
    if dryRun then st
    else ds.foldl (fun s d => d.dupes.foldl (fun s2 x => deleteJobRow x.id s2) s) st
  (stats, ds, st')

/-!
The analyzer pass, src/job_analyzer.py `process_jobs`.  The LLM call is an
input: a total function from a job to the structured analysis result (per
§4.6 `analyze_job` always returns a well-formed structure, substituting a
safe default on failure).
-/

/-- The structured result of `analyze_job`. -/
structure Analysis where
  locationLabel : String := "Review for location"
  jobType : String := "Not specified"
  payRange : String := "NOT_SPECIFIED"
  contractDuration : String := "NOT_SPECIFIED"
  titleCleaned : String := ""
  deriving DecidableEq

/-- The `stats` dict of `process_jobs`. -/
structure AnalyzeStats where
  seattle : Nat := 0
  remote : Nat := 0
  review : Nat := 0
  deleted : Nat := 0
  payFound : Nat := 0
  titleCleaned : Nat := 0
  deriving DecidableEq

/-- The sequence of `UPDATE jobs SET ... WHERE id = ?` statements applied to
a kept job: `location_label` always; `job_type` / `pay_range` /
`contract_duration` only when not the sentinel; `title` only when the
cleaned title differs from the fetched one (`origTitle`). -/
def applyAnalysis (a : Analysis) (origTitle : String) (j : JobRow) : JobRow :=
  let j := { j with locationLabel := some a.locationLabel }
  let j := if a.jobType ≠ "Not specified" then { j with jobType := some a.jobType } else j
  let j := if a.payRange ≠ "NOT_SPECIFIED" then { j with payRange := some a.payRange } else j
  let j :=
    if a.contractDuration ≠ "NOT_SPECIFIED" then
      { j with contractDuration := some a.contractDuration }
    else j
  if a.titleCleaned ≠ origTitle then { j with title := a.titleCleaned } else j

/-- The body of the `for job in jobs` loop of `process_jobs`: update the
stats, and (when not `dry_run`) delete the job on `DELETE` or persist the
analysis fields (conditionally, per the sentinel values). -/
def processOne (classify : JobRow → Analysis) (dryRun : Bool)
    (acc : AnalyzeStats × DBState) (job : JobRow) : AnalyzeStats × DBState :=
  let stats := acc.1
  let st := acc.2
  let a := classify job
  let stats :=
    if a.titleCleaned ≠ job.title then
      { stats with titleCleaned := stats.titleCleaned + 1 }
    else stats
  let stats :=
    if a.payRange ≠ "NOT_SPECIFIED" then
      { stats with payFound := stats.payFound + 1 }
    else stats
  if a.locationLabel = "DELETE" then
    ({ stats with deleted := stats.deleted + 1 },
      if dryRun then st else deleteJobRow job.id st)
  else
    let stats :=
      if a.locationLabel = "Seattle" then { stats with seattle := stats.seattle + 1 }
      else if a.locationLabel = "Remote" then { stats with remote := stats.remote + 1 }
      else { stats with review := stats.review + 1 }
    if dryRun then (stats, st)
    else
      (stats,
        { st with
            jobs := st.jobs.map (fun g =>
              if g.id == job.id then applyAnalysis a job.title g else g) })

/-- `process_jobs(job_ids, dry_run)` from src/job_analyzer.py, with the
classifier as an explicit input.  The jobs to analyze are fetched up front
(by ids, else all with status `new`). -/
def process_jobs (classify : JobRow → Analysis) (jobIds : Option (List Nat))
    (dryRun : Bool) (st : DBState) : AnalyzeStats × DBState :=
  let todo :=
    match jobIds with
    | some ids => ids.filterMap (fun i => st.jobs.find? (fun j : JobRow => j.id == i))
    | none => st.jobs.filter (fun j => j.status == "new")
  todo.foldl (processOne classify dryRun) ({}, st)

/-!
The RSS fetch pass: `fetch_and_parse_jobs` (src/rss_job_feed.py) and
`run_rss_fetch` (src/run_pipeline.py).  Feed contents are an input
(`entriesOf`); an `upsert_job` exception for an entry (caught by the
`except ... continue` in the loop) is modelled by the oracle `upsertFails`.
`pandas.sort_values` is modelled as a stable sort (its tie order on equal
dates is unspecified; no claim depends on it).
-/

/-- A parsed feed entry as built by `fetch_and_parse_jobs`. -/
structure Entry where
  title : String
  url : String
  description : Option String := none
  postedDate : Nat
  source : Option String := none
  feed : Option String := none
  feedUrl : String
  deriving DecidableEq

/-- The per-feed cutoff filter: entries at or before the feed's cutoff are
skipped (`if cutoff and pub_date <= cutoff: continue`); a feed without a
cutoff gets a full fetch. -/
def fetchFeed (since : String → Option Nat) (entriesOf : String → List Entry)
    (u : String) : List Entry :=
  match since u with
  | some c => (entriesOf u).filter (fun e => decide (c < e.postedDate))
  | none => entriesOf u

/-- `drop_duplicates(subset=["Job Title", "URL"], keep="first")`. -/
def dropDupTitleUrl : List Entry → List (String × String) → List Entry
  | [], _ => []
  | e :: es, seen =>
    if seen.contains (e.title, e.url) then dropDupTitleUrl es seen
    else e :: dropDupTitleUrl es ((e.title, e.url) :: seen)

/-- `fetch_and_parse_jobs(feed_url, since=...)`: fetch each feed, filter by
its cutoff, sort newest-first, drop (title, url) duplicates. -/
def fetch_and_parse_jobs (feedUrls : List String) (since : String → Option Nat)
    (entriesOf : String → List Entry) : List Entry :=
  dropDupTitleUrl
    (stableSort (fun a b => decide (b.postedDate ≤ a.postedDate))
      ((feedUrls.map (fetchFeed since entriesOf)).flatten))
    []

/-- `feed_rows["Posted Date"].max()` (on a non-empty list of dates). -/
def maxDate (l : List Nat) : Nat := l.foldl Nat.max 0

/-- One iteration of the upsert loop of `run_rss_fetch`: upsert the entry,
except that an entry whose `upsert_job` raises (`upsertFails`) is skipped —
the exception is caught and the loop continues. -/
def rssUpsertStep (upsertFails : Entry → Bool) (acc : Nat × DBState)
    (e : Entry) : Nat × DBState :=
  if upsertFails e then acc
  else
    (acc.1 + 1,
      (upsert_job
        { title := e.title, url := e.url, description := e.description,
          postedDate := some e.postedDate, source := e.source,
          feed := e.feed, feedUrl := some e.feedUrl } acc.2).2)

/-- One iteration of the cursor loop of `run_rss_fetch`: record the newest
entry timestamp for the feed URL, if the pass fetched any rows for it. -/
def rssCursorStep (df : List Entry) (s : DBState) (u : String) : DBState :=
  let rows := df.filter (fun e => e.feedUrl == u)
  if rows.isEmpty then s
  else set_last_fetch u (maxDate (rows.map Entry.postedDate)) s

/-- `run_rss_fetch(conn)` from src/run_pipeline.py: load the per-feed
cutoffs, fetch, upsert every entry (an entry whose upsert raises is skipped
and the loop continues), then record the newest entry timestamp per feed
URL.  Returns `(jobs_fetched, jobs_upserted)` and the new database. -/
def run_rss_fetch (feedUrls : List String) (entriesOf : String → List Entry)
    (upsertFails : Entry → Bool) (st : DBState) : (Nat × Nat) × DBState :=
  let df := fetch_and_parse_jobs feedUrls (get_all_last_fetches st) entriesOf
  if df.isEmpty then ((0, 0), st)
  else
    let loop := df.foldl (rssUpsertStep upsertFails) (0, st)
    let st2 := feedUrls.foldl (rssCursorStep df) loop.2
    ((df.length, loop.1), st2)

def dedupJob1 : JobRow :=
  { id := 1, title := "Acme: Writer", url := "u1",
    description := some (String.mk (List.replicate 50 'a')), postedDate := some 1 }

def dedupJob2 : JobRow :=
  { id := 2, title := "Acme: Writer", url := "u2",
    description := some (String.mk (List.replicate 200 'b')), postedDate := some 10 }

def dedupJob3 : JobRow :=
  { id := 3, title := "Acme: Writer", url := "u3",
    description := some (String.mk (List.replicate 10 'c')), postedDate := some 46 }

def dedupStateEx : DBState :=
  { jobs := [dedupJob1, dedupJob2, dedupJob3], nextJobId := 4 }

def rssState0 : DBState :=
  { feeds := [{ id := 1, name := "F", url := some "F", lastFetch := some 10 }],
    nextFeedId := 2 }

def rssEntry : Entry :=
  { title := "T", url := "J", postedDate := 20, source := some "S",
    feed := some "FN", feedUrl := "F" }

def rssEntriesOf (u : String) : List Entry := if u == "F" then [rssEntry] else []

/-- Does the `$`-anchored pattern `m` match from some position through to
the end of the string (exactly the positions `ruleSub` examines)? -/
def firesOn (m : List Char → Bool) : List Char → Bool
  | [] => false
  | c :: cs => m (c :: cs) || firesOn m cs

/-- None of the three stripping rules of `normalize_title` matches in `s`. -/
def noRuleFires (s : String) : Bool :=
  !(firesOn r1Match s.data || firesOn r2Match s.data || firesOn r3Match s.data)

/-- A sequence of `upsert_job` calls (each with its own arguments). -/
def upsertAll (L : List UpsertArgs) (st : DBState) : DBState :=
  L.foldl (fun s a => (upsert_job a s).2) st

/-- The invariant that feed rows with no URL carry no cursor (rows created
by the code always set a URL together with any `last_fetch`). -/
def feedInv (st : DBState) : Prop :=
  ∀ f ∈ st.feeds, f.url = none → f.lastFetch = none

/-- The rows of the fetched dataframe belonging to one feed URL
(`jobs_df[jobs_df["Feed URL"] == url]`). -/
def rssRows (feedUrls : List String) (entriesOf : String → List Entry)
    (st : DBState) (u : String) : List Entry :=
  (fetch_and_parse_jobs feedUrls (get_all_last_fetches st) entriesOf).filter
    (fun e => e.feedUrl == u)

/-! Concrete fixtures for witnesses and evaluations. -/

/-- A minimal job row for the status/score write fixtures. -/
def writeJobEx : JobRow := { id := 1, title := "T", url := "u" }

/-- A database with the single job `writeJobEx`. -/
def writeStateEx : DBState := { jobs := [writeJobEx], nextJobId := 2 }

/-!
## C5
-/

/-- C5: `is_truly_remote(description, title)` returns true immediately when
the title is non-empty, contains the whole word "remote" case-insensitively
and matches no negative pattern; otherwise it returns false on an empty
description, and otherwise returns true iff the description matches a
positive remote pattern and no negative pattern.  In particular
`is_truly_remote("", "Remote Technical Writer")` is true,
`is_truly_remote("", "Remote Sensing Analyst")` is false,
`is_truly_remote("This is a fully remote position.")` is true and
`is_truly_remote("We do not offer remote work.")` is false. -/
theorem c5_is_truly_remote_spec :
    (∀ d t : String,
      (t ≠ "" → remoteTitleSearch t = true → remoteNegativeSearch t = false →
        is_truly_remote d t = true) ∧
      (¬(t ≠ "" ∧ remoteTitleSearch t = true ∧ remoteNegativeSearch t = false) →
        (d = "" → is_truly_remote d t = false) ∧
        (d ≠ "" →
          (is_truly_remote d t = true ↔
            remotePositiveSearch d = true ∧ remoteNegativeSearch d = false)))) ∧
    is_truly_remote "" "Remote Technical Writer" = true ∧
    is_truly_remote "" "Remote Sensing Analyst" = false ∧
    is_truly_remote "This is a fully remote position." = true ∧
    is_truly_remote "We do not offer remote work." = false := by
  refine ⟨fun d t => ⟨?_, ?_⟩, by decide, by decide, by decide, by decide⟩
  · intro h1 h2 h3
    simp [is_truly_remote, h1, h2, h3]
  · intro h
    have hcond :
        ¬((decide (t ≠ "") && remoteTitleSearch t && !remoteNegativeSearch t) = true) := by
      simp only [Bool.and_eq_true, decide_eq_true_eq, Bool.not_eq_true']
      intro hc
      exact h ⟨hc.1.1, hc.1.2, hc.2⟩
    constructor
    · intro hd
      unfold is_truly_remote
      rw [if_neg hcond, if_pos hd]
    · intro hd
      unfold is_truly_remote
      rw [if_neg hcond, if_neg hd]
      simp [Bool.and_eq_true, Bool.not_eq_true']

/-- Witness for C5: the theorem applied at a concrete title and description,
discharging its hypotheses there. -/
theorem c5_witness :
    is_truly_remote "Some description." "Content Writer | Remote" = true :=
  (c5_is_truly_remote_spec.1 "Some description." "Content Writer | Remote").1
    (by decide) (by decide) (by decide)

/-!
## C6
-/

/-- C6 (code-bug evidence): the claim's status enum {new, interested,
passed, applied, rejected, offer} coincides with the CHECK constraint
written by migration 003, but the CHECK in src/db/schema.py (the DDL a
fresh database gets) rejects "interested" and "passed" and accepts the
pre-rename value "reviewed"; in particular `update_status` with
"interested" on a fresh-schema table raises an IntegrityError although the
claim requires the write to succeed. -/
theorem c6_status_enum_storage :
    (∀ s ∈ specStatusEnum, statusCheckMigrated s = true) ∧
    statusCheckMigrated "reviewed" = false ∧
    statusCheckSchema "interested" = false ∧
    statusCheckSchema "passed" = false ∧
    statusCheckSchema "reviewed" = true ∧
    update_status statusCheckSchema 1 "interested" writeStateEx =
      .integrityError "CHECK constraint failed: status" ∧
    update_status statusCheckMigrated 1 "interested" writeStateEx =
      .ok (some { writeJobEx with status := "interested" },
        { writeStateEx with jobs := [{ writeJobEx with status := "interested" }] }) := by
  refine ⟨by decide, by decide, by decide, by decide, by decide, by decide, by decide⟩

/-- Witness for C6: the spec's enum member "interested" passes the
migrated CHECK, via the theorem. -/
theorem c6_witness : statusCheckMigrated "interested" = true :=
  c6_status_enum_storage.1 "interested" (by decide)

/-!
## C7
-/

/-- C7: `update_score` on an existing job with a score outside [0, 10] is a
rejected write — the store raises a constraint violation and no state is
produced (no clamping) — while scores inside [0, 10] and null are accepted
and stored as given. -/
theorem c7_update_score_bounds (st : DBState) (jid : Nat) (j : JobRow)
    (rat : Option String)
    (hfind : st.jobs.find? (fun r => r.id == jid) = some j) :
    (∀ q : ℚ, q < 0 ∨ 10 < q →
      update_score jid (some q) rat st =
        .integrityError "CHECK constraint failed: score") ∧
    (∀ q : ℚ, 0 ≤ q → q ≤ 10 →
      update_score jid (some q) rat st =
        .ok (some { j with score := some q, scoreRationale := rat },
          { st with jobs := st.jobs.map (fun g =>
              if g.id == jid then { j with score := some q, scoreRationale := rat }
              else g) })) ∧
    update_score jid none rat st =
      .ok (some { j with score := none, scoreRationale := rat },
        { st with jobs := st.jobs.map (fun g =>
            if g.id == jid then { j with score := none, scoreRationale := rat }
            else g) }) := by
  refine ⟨?_, ?_, ?_⟩
  · intro q hq
    have hchk : scoreCheck (some q) = false := by
      simp only [scoreCheck, Bool.and_eq_false_iff, decide_eq_false_iff_not, not_le]
      rcases hq with hq | hq
      · exact Or.inl hq
      · exact Or.inr hq
    simp [update_score, hfind, hchk]
  · intro q h0 h10
    have hchk : scoreCheck (some q) = true := by
      simp [scoreCheck, h0, h10]
    simp [update_score, hfind, hchk]
  · simp [update_score, hfind, scoreCheck]

/-- Witness for C7: score 11 is rejected on a concrete one-job database and
score 7.5 is accepted, via the theorem applied there. -/
theorem c7_witness :
    update_score 1 (some 11) none writeStateEx =
      .integrityError "CHECK constraint failed: score" ∧
    update_score 1 (some (15 / 2)) none writeStateEx =
      .ok (some { writeJobEx with score := some (15 / 2) },
        { writeStateEx with jobs := [{ writeJobEx with score := some (15 / 2) }] }) := by
  have h := c7_update_score_bounds writeStateEx 1 writeJobEx none (by decide)
  refine ⟨h.1 11 (by norm_num), ?_⟩
  have h2 := h.2.1 (15 / 2) (by norm_num) (by norm_num)
  simpa [writeStateEx, writeJobEx] using h2

/-!
## C3
-/

theorem ruleSub_eq_self (m : List Char → Bool) (cs : List Char)
    (h : firesOn m cs = false) : ruleSub m cs = cs := by
  induction cs with
  | nil => rfl
  | cons c cs ih =>
    simp only [firesOn, Bool.or_eq_false_iff] at h
    simp [ruleSub, h.1, ih h.2]

theorem dropWhile_dropWhile (p : α → Bool) (l : List α) :
    (l.dropWhile p).dropWhile p = l.dropWhile p := by
  induction l with
  | nil => rfl
  | cons a l ih =>
    by_cases h : p a
    · simp [List.dropWhile_cons, h, ih]
    · simp [List.dropWhile_cons, h]

theorem dropWhile_head_not (p : α → Bool) (l : List α) (y : α) (ys : List α)
    (h : l.dropWhile p = y :: ys) : p y = false := by
  induction l with
  | nil => simp at h
  | cons a l ih =>
    rw [List.dropWhile_cons] at h
    by_cases ha : p a
    · exact ih (by simpa [ha] using h)
    · rw [if_neg (by simpa using ha)] at h
      cases h
      simpa using ha

theorem exists_trimEnd_suffix (cs : List Char) :
    ∃ suf, cs = trimEnd cs ++ suf := by
  refine ⟨(cs.reverse.takeWhile isPySpace).reverse, ?_⟩
  unfold trimEnd
  conv_lhs => rw [← List.reverse_reverse cs,
    ← List.takeWhile_append_dropWhile (p := isPySpace) (l := cs.reverse)]
  rw [List.reverse_append]

theorem trimEnd_trimEnd (cs : List Char) : trimEnd (trimEnd cs) = trimEnd cs := by
  unfold trimEnd
  rw [List.reverse_reverse, dropWhile_dropWhile]

theorem trimStart_trimEnd_trimStart (cs : List Char) :
    trimStart (trimEnd (trimStart cs)) = trimEnd (trimStart cs) := by
  cases hX : trimEnd (trimStart cs) with
  | nil => simp [trimStart]
  | cons y ys =>
    obtain ⟨suf, hsuf⟩ := exists_trimEnd_suffix (trimStart cs)
    rw [hX] at hsuf
    have hy : isPySpace y = false := by
      refine dropWhile_head_not isPySpace cs y (ys ++ suf) ?_
      simpa using hsuf
    simp [trimStart, List.dropWhile_cons, hy]

theorem pyStrip_pyStrip (cs : List Char) : pyStrip (pyStrip cs) = pyStrip cs := by
  unfold pyStrip
  rw [trimStart_trimEnd_trimStart, trimEnd_trimEnd]

/-- C3 counterexample: `normalize_title` is not idempotent.  On
"Writer (Seattle, WA) in United States" the first pass strips only
" in United States" (rule 3), exposing the parenthesized location that a
second pass then strips (rule 2). -/
theorem c3_normalize_not_idempotent :
    normalize_title (normalize_title "Writer (Seattle, WA) in United States") ≠
      normalize_title "Writer (Seattle, WA) in United States" := by decide

/-- C3 amended: `normalize_title` is idempotent on every title whose
normalized form is matched by none of the three stripping rules; in
general a second application can strip a further location suffix. -/
theorem c3_normalize_idempotent_amended (t : String)
    (h : noRuleFires (normalize_title t) = true) :
    normalize_title (normalize_title t) = normalize_title t := by
  have hd : (normalize_title t).data =
      pyStrip (ruleSub r3Match (ruleSub r2Match (ruleSub r1Match t.data))) := rfl
  unfold noRuleFires at h
  rw [Bool.not_eq_true'] at h
  simp only [Bool.or_eq_false_iff] at h
  obtain ⟨⟨h1, h2⟩, h3⟩ := h
  have hstep : normalize_title (normalize_title t) =
      String.mk (pyStrip (ruleSub r3Match (ruleSub r2Match
        (ruleSub r1Match (normalize_title t).data)))) := rfl
  rw [hstep, ruleSub_eq_self _ _ h1, ruleSub_eq_self _ _ h2,
    ruleSub_eq_self _ _ h3, hd, pyStrip_pyStrip]
  rfl

/-- Witness for C3's amended theorem at a concrete title. -/
theorem c3_witness :
    noRuleFires (normalize_title "Senior Writer in Bellevue, WA") = true ∧
    normalize_title (normalize_title "Senior Writer in Bellevue, WA") =
      normalize_title "Senior Writer in Bellevue, WA" :=
  ⟨by decide, c3_normalize_idempotent_amended _ (by decide)⟩

/-!
## C1, C9, C10: upsert semantics
-/

theorem get_or_create_source_jobs (n : String) (st : DBState) :
    (get_or_create_source n st).2.jobs = st.jobs := by
  unfold get_or_create_source
  split <;> rfl

theorem get_or_create_feed_jobs (n : String) (url : Option String)
    (sid : Option Nat) (st : DBState) :
    (get_or_create_feed n url sid st).2.jobs = st.jobs := by
  unfold get_or_create_feed
  split
  · rfl
  · split
    · split <;> rfl
    · rfl

theorem resolveProvenance_jobs (a : UpsertArgs) (st : DBState) :
    (resolveProvenance a st).2.jobs = st.jobs := by
  unfold resolveProvenance
  cases a.source <;> cases a.feed <;>
    simp only [get_or_create_feed_jobs, get_or_create_source_jobs]

theorem upsert_job_eq_upsertRow (a : UpsertArgs) (st : DBState) :
    upsert_job a st =
      upsertRow a (resolveProvenance a st).1.1 (resolveProvenance a st).1.2
        (resolveProvenance a st).2 := rfl

/-- C1: re-upserting an existing URL updates exactly {title, description,
posted_date, source_id, feed_id} of the conflicting row — status, score,
score_rationale and the resume/cover-letter fields (and id, url) of every
row are untouched, and no other row changes at all. -/
theorem c1_upsert_updates_content_preserves_triage (a : UpsertArgs)
    (st : DBState) (r : JobRow)
    (hnd : (st.jobs.map JobRow.url).Nodup)
    (hmem : r ∈ st.jobs) (hurl : r.url = a.url) :
    ∃ sid fid : Option Nat,
      (upsert_job a st).2.jobs =
        st.jobs.map (fun g =>
          if g.url = a.url then
            { g with title := a.title, description := a.description,
                     postedDate := a.postedDate, sourceId := sid, feedId := fid }
          else g) := by
  have hjobs := resolveProvenance_jobs a st
  refine ⟨(resolveProvenance a st).1.1, (resolveProvenance a st).1.2, ?_⟩
  rw [upsert_job_eq_upsertRow]
  unfold upsertRow
  cases h : (resolveProvenance a st).2.jobs.find? (fun j => j.url == a.url) with
  | none =>
    rw [List.find?_eq_none] at h
    exact absurd (by simp [hurl]) (h r (hjobs ▸ hmem))
  | some j =>
    have hjmem : j ∈ st.jobs := hjobs ▸ List.mem_of_find?_eq_some h
    have hju : j.url = a.url := by
      have := List.find?_some h
      simpa using this
    simp only [hjobs]
    apply List.map_congr_left
    intro g hg
    by_cases hgu : g.url = a.url
    · have hjg : j = g :=
        List.inj_on_of_nodup_map hnd hjmem hg (by rw [hju, hgu])
      rw [if_pos (by simp [hgu]), if_pos hgu, hjg]
    · rw [if_neg (by simp [hgu]), if_neg hgu]

/-- Witness for C1 on a one-row database carrying triage state. -/
theorem c1_witness :
    ∃ sid fid : Option Nat,
      (upsert_job { title := "New", url := "u", description := some "d2" }
        { jobs := [{ id := 1, title := "Old", url := "u", status := "interested",
                     score := some 7, resumeMd := some "r" }],
          nextJobId := 2 }).2.jobs =
        [{ id := 1, title := "Old", url := "u", status := "interested",
           score := some 7, resumeMd := some "r" }].map (fun g =>
          if g.url = "u" then
            { g with title := "New", description := some "d2",
                     postedDate := none, sourceId := sid, feedId := fid }
          else g) :=
  c1_upsert_updates_content_preserves_triage
    { title := "New", url := "u", description := some "d2" }
    { jobs := [{ id := 1, title := "Old", url := "u", status := "interested",
                 score := some 7, resumeMd := some "r" }],
      nextJobId := 2 }
    { id := 1, title := "Old", url := "u", status := "interested",
      score := some 7, resumeMd := some "r" }
    (by decide) (by decide) rfl

/-- C10: on a URL conflict the content fields are overwritten
unconditionally with the new call's arguments, including their `None`
defaults: re-upserting with description/posted_date/source/feed omitted
nulls those fields of the stored row, whatever they held before. -/
theorem c10_upsert_overwrites_with_defaults (t u : String) (st : DBState)
    (r : JobRow) (hnd : (st.jobs.map JobRow.url).Nodup)
    (hmem : r ∈ st.jobs) (hurl : r.url = u) :
    (upsert_job { title := t, url := u } st).1.id = r.id ∧
    (upsert_job { title := t, url := u } st).1.url = u ∧
    (upsert_job { title := t, url := u } st).1.title = t ∧
    (upsert_job { title := t, url := u } st).1.description = none ∧
    (upsert_job { title := t, url := u } st).1.postedDate = none ∧
    (upsert_job { title := t, url := u } st).1.sourceId = none ∧
    (upsert_job { title := t, url := u } st).1.feedId = none ∧
    (upsert_job { title := t, url := u } st).1 ∈
      (upsert_job { title := t, url := u } st).2.jobs := by
  have heq : upsert_job { title := t, url := u } st =
      upsertRow { title := t, url := u } none none st := rfl
  rw [heq]
  unfold upsertRow
  cases h : st.jobs.find? (fun j => j.url == (({ title := t, url := u } : UpsertArgs)).url) with
  | none =>
    rw [List.find?_eq_none] at h
    exact absurd (by simp [hurl]) (h r hmem)
  | some j =>
    have hjmem : j ∈ st.jobs := List.mem_of_find?_eq_some h
    have hju : j.url = u := by
      have := List.find?_some h
      simpa using this
    have hjr : j = r := List.inj_on_of_nodup_map hnd hjmem hmem (by rw [hju, hurl])
    refine ⟨by rw [hjr], hju, rfl, rfl, rfl, rfl, rfl, ?_⟩
    have hmem2 := List.mem_map_of_mem
      (fun g : JobRow => if g.url == u then
        { j with title := t, description := none, postedDate := none,
                 sourceId := none, feedId := none } else g) hjmem
    simpa [hju] using hmem2

/-- Witness for C10: nulling a previously non-null description. -/
theorem c10_witness :
    (upsert_job { title := "T2", url := "u" }
      { jobs := [{ id := 1, title := "T", url := "u", description := some "old",
                   postedDate := some 5 }], nextJobId := 2 }).1.description = none :=
  (c10_upsert_overwrites_with_defaults "T2" "u"
    { jobs := [{ id := 1, title := "T", url := "u", description := some "old",
                 postedDate := some 5 }], nextJobId := 2 }
    { id := 1, title := "T", url := "u", description := some "old",
      postedDate := some 5 }
    (by decide) (by decide) rfl).2.2.2.1

/-- The effect of one upsert on the stored URLs: unchanged on conflict,
extended by the new URL otherwise. -/
theorem upsert_job_urls (a : UpsertArgs) (st : DBState) :
    (upsert_job a st).2.jobs.map JobRow.url =
      if a.url ∈ st.jobs.map JobRow.url then st.jobs.map JobRow.url
      else st.jobs.map JobRow.url ++ [a.url] := by
  have hjobs := resolveProvenance_jobs a st
  rw [upsert_job_eq_upsertRow]
  unfold upsertRow
  cases h : (resolveProvenance a st).2.jobs.find? (fun j => j.url == a.url) with
  | some j =>
    have hjmem : j ∈ st.jobs := hjobs ▸ List.mem_of_find?_eq_some h
    have hju : j.url = a.url := by
      have := List.find?_some h
      simpa using this
    rw [if_pos (hju ▸ List.mem_map_of_mem JobRow.url hjmem)]
    simp only [hjobs, List.map_map]
    apply List.map_congr_left
    intro g hg
    by_cases hgu : g.url = a.url
    · simp [Function.comp, hgu, hju]
    · simp [Function.comp, hgu]
  | none =>
    rw [List.find?_eq_none] at h
    have hnmem : a.url ∉ st.jobs.map JobRow.url := by
      intro hm
      obtain ⟨x, hx, hxe⟩ := List.mem_map.mp hm
      exact h x (hjobs ▸ hx) (by simp [hxe])
    rw [if_neg hnmem]
    simp [hjobs]

theorem upsert_job_urls_nodup (a : UpsertArgs) (st : DBState)
    (hnd : (st.jobs.map JobRow.url).Nodup) :
    ((upsert_job a st).2.jobs.map JobRow.url).Nodup := by
  rw [upsert_job_urls]
  by_cases hm : a.url ∈ st.jobs.map JobRow.url
  · rwa [if_pos hm]
  · rw [if_neg hm]
    simp [List.nodup_append, hnd, hm]

theorem upsertAll_urls (L : List UpsertArgs) (st : DBState)
    (hnd : (st.jobs.map JobRow.url).Nodup) :
    ((upsertAll L st).jobs.map JobRow.url).Nodup ∧
      ∀ u : String,
        u ∈ (upsertAll L st).jobs.map JobRow.url ↔
          u ∈ st.jobs.map JobRow.url ∨ u ∈ L.map UpsertArgs.url := by
  induction L generalizing st with
  | nil => exact ⟨hnd, fun u => by simp [upsertAll]⟩
  | cons a L ih =>
    have hstep : upsertAll (a :: L) st = upsertAll L (upsert_job a st).2 := rfl
    obtain ⟨ihnd, ihmem⟩ := ih (upsert_job a st).2 (upsert_job_urls_nodup a st hnd)
    rw [hstep]
    refine ⟨ihnd, fun u => ?_⟩
    rw [ihmem u, upsert_job_urls, List.map_cons]
    by_cases hm : a.url ∈ st.jobs.map JobRow.url
    · rw [if_pos hm]
      simp only [List.mem_cons]
      constructor
      · rintro (h | h)
        · exact Or.inl h
        · exact Or.inr (Or.inr h)
      · rintro (h | h | h)
        · exact Or.inl h
        · exact Or.inl (h ▸ hm)
        · exact Or.inr h
    · rw [if_neg hm]
      simp only [List.mem_cons, List.mem_append, List.mem_singleton]
      tauto

/-- C9: repeated upserts never duplicate a URL — after any sequence of
upserts on a URL-unique store, URLs are still unique, the stored URL set is
the old set united with the called URLs, the row count equals the size of
that union (one row per distinct URL), and every upserted URL occupies
exactly one row. -/
theorem c9_unique_url_invariant (L : List UpsertArgs) (st : DBState)
    (hnd : (st.jobs.map JobRow.url).Nodup) :
    ((upsertAll L st).jobs.map JobRow.url).Nodup ∧
    (∀ u : String,
      u ∈ (upsertAll L st).jobs.map JobRow.url ↔
        u ∈ st.jobs.map JobRow.url ∨ u ∈ L.map UpsertArgs.url) ∧
    (upsertAll L st).jobs.length =
      ((st.jobs.map JobRow.url).toFinset ∪ (L.map UpsertArgs.url).toFinset).card ∧
    ∀ u ∈ L.map UpsertArgs.url,
      ((upsertAll L st).jobs.filter (fun j => j.url == u)).length = 1 := by
  obtain ⟨hnd', hmem⟩ := upsertAll_urls L st hnd
  have hfin : ((upsertAll L st).jobs.map JobRow.url).toFinset =
      (st.jobs.map JobRow.url).toFinset ∪ (L.map UpsertArgs.url).toFinset := by
    ext u
    simp [hmem u]
  refine ⟨hnd', hmem, ?_, ?_⟩
  · calc (upsertAll L st).jobs.length
        = ((upsertAll L st).jobs.map JobRow.url).length := by
          rw [List.length_map]
      _ = ((upsertAll L st).jobs.map JobRow.url).toFinset.card :=
          (List.toFinset_card_of_nodup hnd').symm
      _ = _ := by rw [hfin]
  · intro u hu
    have humem : u ∈ (upsertAll L st).jobs.map JobRow.url := (hmem u).mpr (Or.inr hu)
    have hcount : ((upsertAll L st).jobs.map JobRow.url).count u = 1 :=
      List.count_eq_one_of_mem hnd' humem
    calc ((upsertAll L st).jobs.filter (fun j => j.url == u)).length
        = (upsertAll L st).jobs.countP (fun j => j.url == u) :=
          (List.countP_eq_length_filter _ _).symm
      _ = ((upsertAll L st).jobs.map JobRow.url).count u := by
          rw [List.count, List.countP_map]
          rfl
      _ = 1 := hcount

/-- Witness for C9: three upserts, two of them to the same URL, on an empty
store leave exactly one "u" row and two rows in total. -/
theorem c9_witness :
    (((upsertAll [{ title := "A", url := "u" }, { title := "B", url := "u" },
        { title := "C", url := "v" }] {}).jobs.filter
          (fun j => j.url == "u")).length = 1) ∧
    (upsertAll [{ title := "A", url := "u" }, { title := "B", url := "u" },
        { title := "C", url := "v" }] {}).jobs.length =
      ((([] : List JobRow).map JobRow.url).toFinset ∪
        (["u", "u", "v"] : List String).toFinset).card := by
  have h := c9_unique_url_invariant
    [{ title := "A", url := "u" }, { title := "B", url := "u" },
      { title := "C", url := "v" }] {} (by decide)
  exact ⟨h.2.2.2 "u" (by decide), h.2.2.1⟩

/-!
## C2: deduplication clustering and survivor selection
-/

theorem insSorted_perm (le : α → α → Bool) (x : α) (l : List α) :
    (insSorted le x l).Perm (x :: l) := by
  induction l with
  | nil => exact List.Perm.refl _
  | cons y ys ih =>
    by_cases h : le x y
    · simp only [insSorted, if_pos h]
      exact List.Perm.refl _
    · simp only [insSorted, if_neg h]
      exact (ih.cons y).trans (List.Perm.swap x y ys)

theorem stableSort_perm (le : α → α → Bool) (l : List α) :
    (stableSort le l).Perm l := by
  induction l with
  | nil => exact List.Perm.refl _
  | cons x xs ih => exact (insSorted_perm le x (stableSort le xs)).trans (ih.cons x)

theorem insSorted_pairwise_descLen (x : DJob) (l : List DJob)
    (h : l.Pairwise (fun a b => b.descLen ≤ a.descLen)) :
    (insSorted descLenGe x l).Pairwise (fun a b => b.descLen ≤ a.descLen) := by
  induction l with
  | nil => simp [insSorted]
  | cons y ys ih =>
    rcases List.pairwise_cons.mp h with ⟨hy, hys⟩
    by_cases hle : descLenGe x y
    · have hxy : y.descLen ≤ x.descLen := by simpa [descLenGe] using hle
      rw [insSorted, if_pos hle]
      refine List.pairwise_cons.mpr ⟨?_, h⟩
      intro b hb
      rcases List.mem_cons.mp hb with hb | hb
      · exact hb ▸ hxy
      · exact le_trans (hy b hb) hxy
    · have hyx : x.descLen ≤ y.descLen := by
        have : ¬y.descLen ≤ x.descLen := by simpa [descLenGe] using hle
        omega
      rw [insSorted, if_neg hle]
      refine List.pairwise_cons.mpr ⟨?_, ih hys⟩
      intro b hb
      have hb' : b ∈ x :: ys := (insSorted_perm descLenGe x ys).subset hb
      rcases List.mem_cons.mp hb' with hb' | hb'
      · exact hb' ▸ hyx
      · exact hy b hb'

theorem stableSort_pairwise_descLen (l : List DJob) :
    (stableSort descLenGe l).Pairwise (fun a b => b.descLen ≤ a.descLen) := by
  induction l with
  | nil => simp [stableSort]
  | cons x xs ih => exact insSorted_pairwise_descLen x (stableSort descLenGe xs) ih

/-- The survivor of a cluster of size ≥ 2 is a member of the cluster with
the longest description, the survivor plus the deleted duplicates are
exactly the cluster, and exactly `|cluster| - 1` rows are deleted.
Moreover (stability of the descending sort, hence the claim's tie-break)
the survivor is the **first** posting of the cluster attaining that
maximal length: everything before it in the cluster is strictly shorter.
First, the stability lemma: the head of the stable descending sort is
preceded in the original list only by strictly shorter elements. -/
theorem stableSort_head_first_max (l : List DJob) (k : DJob) (ds : List DJob)
    (h : stableSort descLenGe l = k :: ds) :
    ∃ pre post, l = pre ++ k :: post ∧ ∀ x ∈ pre, x.descLen < k.descLen := by
  induction l generalizing k ds with
  | nil => simp [stableSort] at h
  | cons x xs ih =>
    rw [stableSort] at h
    cases hs : stableSort descLenGe xs with
    | nil =>
      rw [hs] at h
      rw [insSorted] at h
      injection h with h1 _
      exact ⟨[], xs, by simp [h1], by simp⟩
    | cons k' ds' =>
      rw [hs] at h
      rw [insSorted] at h
      by_cases hle : descLenGe x k'
      · rw [if_pos hle] at h
        injection h with h1 _
        exact ⟨[], xs, by simp [h1], by simp⟩
      · rw [if_neg hle] at h
        injection h with h1 _
        obtain ⟨pre', post', hxs, hpre'⟩ := ih _ _ hs
        refine ⟨x :: pre', post', ?_, ?_⟩
        · simp only [List.cons_append]
          rw [← h1, ← hxs]
        · intro y hy
          rcases List.mem_cons.mp hy with rfl | hy
          · have hgt : ¬k'.descLen ≤ y.descLen := by simpa [descLenGe] using hle
            rw [← h1]
            omega
          · rw [← h1]
            exact hpre' y hy

theorem clusterDecision_spec (c : List DJob) (h2 : 2 ≤ c.length) :
    (clusterDecision c).keep ∈ c ∧
    (∀ x ∈ c, x.descLen ≤ (clusterDecision c).keep.descLen) ∧
    ((clusterDecision c).keep :: (clusterDecision c).dupes).Perm c ∧
    (clusterDecision c).dupes.length = c.length - 1 ∧
    (∃ pre post, c = pre ++ (clusterDecision c).keep :: post ∧
      ∀ x ∈ pre, x.descLen < (clusterDecision c).keep.descLen) := by
  cases hs : stableSort descLenGe c with
  | nil =>
    exfalso
    have := (stableSort_perm descLenGe c).length_eq
    rw [hs] at this
    simp at this
    omega
  | cons k ds =>
    have hperm : (k :: ds).Perm c := hs ▸ stableSort_perm descLenGe c
    have hd : clusterDecision c = { keep := k, dupes := ds } := by
      rw [clusterDecision, hs]
    rw [hd]
    refine ⟨hperm.subset (List.mem_cons_self k ds), ?_, hperm, ?_, ?_⟩
    · intro x hx
      have hx' : x ∈ k :: ds := hperm.symm.subset hx
      have hp := stableSort_pairwise_descLen c
      rw [hs] at hp
      rcases List.pairwise_cons.mp hp with ⟨hk, _⟩
      rcases List.mem_cons.mp hx' with hx' | hx'
      · exact hx' ▸ le_refl _
      · exact hk x hx'
    · show ds.length = c.length - 1
      have := hperm.length_eq
      simp only [List.length_cons] at this
      omega
    · exact stableSort_head_first_max c k ds hs

theorem clusterStartDate_append (c : List DJob) (j : DJob) (h : c ≠ []) :
    clusterStartDate (c ++ [j]) = clusterStartDate c := by
  cases c with
  | nil => exact absurd rfl h
  | cons a l => rfl

/-- Invariants of the greedy clustering fold (on the reversed, most-recent-
first accumulator): clusters are non-empty, every member lies within the
window of its cluster's first posting, consecutive cluster starts are more
than the window apart, and the clusters partition the input in order. -/
theorem clusterFold_inv (w : Nat) (js : List DJob) (acc : List (List DJob))
    (h1 : ∀ c ∈ acc, c ≠ [])
    (h2 : ∀ c ∈ acc, ∀ x ∈ c,
      (parseDate x.postedDate : Int) - clusterStartDate c ≤ (w : Int))
    (h3 : acc.Chain' (fun c2 c1 =>
      (w : Int) < clusterStartDate c2 - clusterStartDate c1)) :
    (∀ c ∈ js.foldl (clusterStep w) acc, c ≠ []) ∧
    (∀ c ∈ js.foldl (clusterStep w) acc, ∀ x ∈ c,
      (parseDate x.postedDate : Int) - clusterStartDate c ≤ (w : Int)) ∧
    ((js.foldl (clusterStep w) acc).Chain' (fun c2 c1 =>
      (w : Int) < clusterStartDate c2 - clusterStartDate c1)) ∧
    ((js.foldl (clusterStep w) acc).reverse.flatten = acc.reverse.flatten ++ js) := by
  induction js generalizing acc with
  | nil => exact ⟨h1, h2, h3, by simp⟩
  | cons j js ih =>
    have hstep : (j :: js).foldl (clusterStep w) acc =
        js.foldl (clusterStep w) (clusterStep w acc j) := rfl
    rw [hstep]
    cases acc with
    | nil =>
      have e : clusterStep w [] j = [[j]] := rfl
      rw [e]
      obtain ⟨i1, i2, i3, i4⟩ := ih [[j]]
        (by
          intro c hc
          rcases List.mem_singleton.mp hc with rfl
          simp)
        (by
          intro c hc x hx
          rcases List.mem_singleton.mp hc with rfl
          rcases List.mem_singleton.mp hx with rfl
          simp [clusterStartDate])
        (by simp)
      refine ⟨i1, i2, i3, ?_⟩
      rw [i4]
      simp
    | cons c rest =>
      have hcne : c ≠ [] := h1 c (List.mem_cons_self c rest)
      by_cases hcond :
          (parseDate j.postedDate : Int) - clusterStartDate c ≤ (w : Int)
      · have e : clusterStep w (c :: rest) j = (c ++ [j]) :: rest := by
          rw [clusterStep, if_pos hcond]
        rw [e]
        have hsd := clusterStartDate_append c j hcne
        obtain ⟨i1, i2, i3, i4⟩ := ih ((c ++ [j]) :: rest)
          (by
            intro d hd
            rcases List.mem_cons.mp hd with rfl | hd
            · simp
            · exact h1 d (List.mem_cons_of_mem c hd))
          (by
            intro d hd x hx
            rcases List.mem_cons.mp hd with rfl | hd
            · rw [hsd]
              rcases List.mem_append.mp hx with hx | hx
              · exact h2 c (List.mem_cons_self c rest) x hx
              · rcases List.mem_singleton.mp hx with rfl
                exact hcond
            · exact h2 d (List.mem_cons_of_mem c hd) x hx)
          (by
            rcases List.chain'_cons'.mp h3 with ⟨hhd, htl⟩
            refine List.chain'_cons'.mpr ⟨?_, htl⟩
            intro y hy
            rw [hsd]
            exact hhd y hy)
        refine ⟨i1, i2, i3, ?_⟩
        rw [i4]
        simp
      · have e : clusterStep w (c :: rest) j = [j] :: c :: rest := by
          rw [clusterStep, if_neg hcond]
        rw [e]
        obtain ⟨i1, i2, i3, i4⟩ := ih ([j] :: c :: rest)
          (by
            intro d hd
            rcases List.mem_cons.mp hd with rfl | hd
            · simp
            · exact h1 d hd)
          (by
            intro d hd x hx
            rcases List.mem_cons.mp hd with rfl | hd
            · rcases List.mem_singleton.mp hx with rfl
              simp [clusterStartDate]
            · exact h2 d hd x hx)
          (by
            refine List.chain'_cons'.mpr ⟨?_, h3⟩
            intro y hy
            have hyc : c = y := by simpa using hy
            subst hyc
            have hlt : (w : Int) <
                (parseDate j.postedDate : Int) - clusterStartDate c := by omega
            simpa [clusterStartDate] using hlt)
        refine ⟨i1, i2, i3, ?_⟩
        rw [i4]
        simp

/-- C2: (i) the greedy clustering partitions each date-sorted group in
order into non-empty clusters, every posting lies within `window_days` of
its cluster's first posting, and consecutive clusters start more than
`window_days` apart (so a posting joins the open cluster iff it is within
the window of the cluster's first posting); (ii) in every cluster of size
≥ 2 the survivor is the first posting of maximal description length —
every posting has at most its description length and every posting before
it in the cluster is strictly shorter (the stable sort's tie-break) — and
exactly the other `size − 1` postings are deleted; (iii) on the concrete
dataset of the claim — one normalized title, dates 2026-01-01, 2026-01-10
and 2026-02-15 (encoded as day numbers 1, 10, 46), description lengths 50,
200 and 10,
window 30 — the first two postings form one cluster, the 200-length posting
survives, exactly one deletion happens, and the third posting is an
untouched singleton. -/
theorem c2_dedup_clustering_and_survivor :
    (∀ (w : Nat) (js : List DJob),
      (clustersOf w js).flatten = js ∧
      (∀ c ∈ clustersOf w js, c ≠ []) ∧
      (∀ c ∈ clustersOf w js, ∀ x ∈ c,
        (parseDate x.postedDate : Int) - clusterStartDate c ≤ (w : Int)) ∧
      (clustersOf w js).Chain' (fun c1 c2 =>
        (w : Int) < clusterStartDate c2 - clusterStartDate c1)) ∧
    (∀ c : List DJob, 2 ≤ c.length →
      (clusterDecision c).keep ∈ c ∧
      (∀ x ∈ c, x.descLen ≤ (clusterDecision c).keep.descLen) ∧
      ((clusterDecision c).keep :: (clusterDecision c).dupes).Perm c ∧
      (clusterDecision c).dupes.length = c.length - 1 ∧
      (∃ pre post, c = pre ++ (clusterDecision c).keep :: post ∧
        ∀ x ∈ pre, x.descLen < (clusterDecision c).keep.descLen)) ∧
    ((deduplicate_jobs false 30 dedupStateEx).1 =
        { groups := 1, duplicates := 1, deleted := 1 } ∧
      (deduplicate_jobs false 30 dedupStateEx).2.1 =
        [{ keep := djobOf dedupJob2, dupes := [djobOf dedupJob1] }] ∧
      (deduplicate_jobs false 30 dedupStateEx).2.2.jobs = [dedupJob2, dedupJob3]) := by
  refine ⟨?_, clusterDecision_spec, by decide, by decide, by decide⟩
  intro w js
  obtain ⟨i1, i2, i3, i4⟩ :=
    clusterFold_inv w js [] (by simp) (by simp) (by simp)
  refine ⟨?_, ?_, ?_, ?_⟩
  · show ((js.foldl (clusterStep w) []).reverse).flatten = js
    rw [i4]
    simp
  · intro c hc
    exact i1 c (List.mem_reverse.mp hc)
  · intro c hc
    exact i2 c (List.mem_reverse.mp hc)
  · exact List.chain'_reverse.mpr i3

/-- Witness for C2 at the concrete cluster of the claim's dataset. -/
theorem c2_witness :
    (clustersOf 30 [djobOf dedupJob1, djobOf dedupJob2, djobOf dedupJob3]).flatten =
      [djobOf dedupJob1, djobOf dedupJob2, djobOf dedupJob3] ∧
    (clusterDecision [djobOf dedupJob1, djobOf dedupJob2]).keep ∈
      [djobOf dedupJob1, djobOf dedupJob2] ∧
    (∃ pre post,
      [(⟨7, "Acme: Writer", some 1, 0⟩ : DJob), ⟨8, "Acme: Writer", some 2, 0⟩] =
        pre ++ (clusterDecision
          [(⟨7, "Acme: Writer", some 1, 0⟩ : DJob),
            ⟨8, "Acme: Writer", some 2, 0⟩]).keep :: post ∧
      ∀ x ∈ pre, x.descLen <
        (clusterDecision
          [(⟨7, "Acme: Writer", some 1, 0⟩ : DJob),
            ⟨8, "Acme: Writer", some 2, 0⟩]).keep.descLen) ∧
    (clusterDecision
      [(⟨7, "Acme: Writer", some 1, 0⟩ : DJob),
        ⟨8, "Acme: Writer", some 2, 0⟩]).keep =
      (⟨7, "Acme: Writer", some 1, 0⟩ : DJob) :=
  ⟨(c2_dedup_clustering_and_survivor.1 30
      [djobOf dedupJob1, djobOf dedupJob2, djobOf dedupJob3]).1,
    (c2_dedup_clustering_and_survivor.2.1
      [djobOf dedupJob1, djobOf dedupJob2] (by decide)).1,
    (c2_dedup_clustering_and_survivor.2.1
      [(⟨7, "Acme: Writer", some 1, 0⟩ : DJob), ⟨8, "Acme: Writer", some 2, 0⟩]
      (by decide)).2.2.2.2,
    by decide⟩

/-!
## C8: dry-run versus live run
-/

theorem deleteFold_jobs (l : List DJob) (st : DBState) :
    (l.foldl (fun s x => deleteJobRow x.id s) st).jobs =
      st.jobs.filter (fun j => !l.any (fun x => x.id == j.id)) := by
  induction l generalizing st with
  | nil => simp
  | cons x l ih =>
    show (l.foldl _ (deleteJobRow x.id st)).jobs = _
    rw [ih]
    show ((st.jobs.filter (fun j => j.id != x.id)).filter _) = _
    rw [List.filter_filter]
    apply List.filter_congr
    intro j _
    simp only [List.any_cons, Bool.not_or, bne]
    rw [Bool.and_comm]
    congr 1
    simp [eq_comm]

theorem dedupDeleteFold_jobs (ds : List Decision) (st : DBState) :
    ((ds.foldl (fun s d => d.dupes.foldl (fun s2 x => deleteJobRow x.id s2) s) st).jobs) =
      st.jobs.filter (fun j => !ds.any (fun d => d.dupes.any (fun x => x.id == j.id))) := by
  induction ds generalizing st with
  | nil => simp
  | cons d ds ih =>
    show ((ds.foldl _ (d.dupes.foldl (fun s2 x => deleteJobRow x.id s2) st)).jobs) = _
    rw [ih, deleteFold_jobs]
    rw [List.filter_filter]
    apply List.filter_congr
    intro j _
    simp only [List.any_cons, Bool.not_or]
    rw [Bool.and_comm]

theorem processOne_stats (cl : JobRow → Analysis) (b b' : Bool)
    (acc acc' : AnalyzeStats × DBState) (j : JobRow) (h : acc.1 = acc'.1) :
    (processOne cl b acc j).1 = (processOne cl b' acc' j).1 := by
  unfold processOne
  rw [h]
  by_cases hdel : (cl j).locationLabel = "DELETE"
  · simp [hdel]
  · simp only [hdel, if_false]
    cases b <;> cases b' <;> simp

theorem processOne_dry_state (cl : JobRow → Analysis)
    (acc : AnalyzeStats × DBState) (j : JobRow) :
    (processOne cl true acc j).2 = acc.2 := by
  unfold processOne
  by_cases hdel : (cl j).locationLabel = "DELETE"
  · simp [hdel]
  · simp [hdel]

theorem processFold_stats (cl : JobRow → Analysis) (todo : List JobRow)
    (acc acc' : AnalyzeStats × DBState) (h : acc.1 = acc'.1) :
    (todo.foldl (processOne cl true) acc).1 =
      (todo.foldl (processOne cl false) acc').1 := by
  induction todo generalizing acc acc' with
  | nil => exact h
  | cons j todo ih =>
    exact ih (processOne cl true acc j) (processOne cl false acc' j)
      (processOne_stats cl true false acc acc' j h)

theorem processFold_dry_state (cl : JobRow → Analysis) (todo : List JobRow)
    (acc : AnalyzeStats × DBState) :
    (todo.foldl (processOne cl true) acc).2 = acc.2 := by
  induction todo generalizing acc with
  | nil => rfl
  | cons j todo ih =>
    rw [List.foldl_cons, ih (processOne cl true acc j), processOne_dry_state]

/-- C8 counterexample: on the concrete duplicate dataset, the stats dict
returned by `deduplicate_jobs` under dry-run differs from the live run's
(`deleted` is 0 dry versus 1 live), refuting "reports the same counts". -/
theorem c8_dry_run_counterexample :
    (deduplicate_jobs true 30 dedupStateEx).1 ≠
      (deduplicate_jobs false 30 dedupStateEx).1 := by decide

/-- C8 amended: dry-run and live runs of `deduplicate_jobs` report the same
`groups` and `duplicates` counts and identical per-job keep/delete
decisions; the `deleted` counter alone differs (0 under dry-run, equal to
`duplicates` live).  The dry run performs zero mutations and the live run
deletes exactly the decided duplicates.  The classifier pass
`process_jobs` with a fixed classifier reports identical stats in both
modes and mutates nothing under dry-run. -/
theorem c8_dry_run_amended :
    (∀ (w : Nat) (st : DBState),
      (deduplicate_jobs true w st).2.1 = (deduplicate_jobs false w st).2.1 ∧
      (deduplicate_jobs true w st).1.groups =
        (deduplicate_jobs false w st).1.groups ∧
      (deduplicate_jobs true w st).1.duplicates =
        (deduplicate_jobs false w st).1.duplicates ∧
      (deduplicate_jobs true w st).1.deleted = 0 ∧
      (deduplicate_jobs false w st).1.deleted =
        (deduplicate_jobs false w st).1.duplicates ∧
      (deduplicate_jobs true w st).2.2 = st ∧
      (deduplicate_jobs false w st).2.2.jobs =
        st.jobs.filter (fun j =>
          !(dedupDecisions w st).any (fun d =>
            d.dupes.any (fun x => x.id == j.id)))) ∧
    (∀ (cl : JobRow → Analysis) (ids : Option (List Nat)) (st : DBState),
      (process_jobs cl ids true st).1 = (process_jobs cl ids false st).1 ∧
      (process_jobs cl ids true st).2 = st) := by
  constructor
  · intro w st
    refine ⟨rfl, rfl, rfl, rfl, rfl, rfl, ?_⟩
    exact dedupDeleteFold_jobs (dedupDecisions w st) st
  · intro cl ids st
    constructor
    · exact processFold_stats cl _ ({}, st) ({}, st) rfl
    · exact processFold_dry_state cl _ ({}, st)

/-!
## C4: fetch-cursor semantics
-/

theorem find?_map_of_pred {α : Type} (l : List α) (g : α → α) (p : α → Bool)
    (h : ∀ x, p (g x) = p x) :
    (l.map g).find? p = (l.find? p).map g := by
  induction l with
  | nil => rfl
  | cons x l ih =>
    cases hp : p x with
    | true =>
      have hgx : p (g x) = true := by rw [h x, hp]
      simp [List.find?_cons, hgx, hp]
    | false =>
      have hgx : p (g x) = false := by rw [h x, hp]
      simp [List.find?_cons, hgx, hp, ih]

theorem find?_append_single {α : Type} (l : List α) (x : α) (p : α → Bool)
    (hx : p x = false) :
    (l ++ [x]).find? p = l.find? p := by
  induction l with
  | nil => simp [List.find?_cons, hx]
  | cons a l ih =>
    cases ha : p a with
    | true => simp [List.find?_cons, ha]
    | false => simp [List.find?_cons, ha, ih]

theorem find?_append_none {α : Type} (l₁ l₂ : List α) (p : α → Bool)
    (h : l₁.find? p = none) :
    (l₁ ++ l₂).find? p = l₂.find? p := by
  induction l₁ with
  | nil => rfl
  | cons a l ih =>
    rw [List.find?_eq_none] at h
    have ha : p a = false := by
      have := h a (List.mem_cons_self a l)
      simpa using this
    have hl : l.find? p = none := by
      rw [List.find?_eq_none]
      intro x hx
      exact h x (List.mem_cons_of_mem a hx)
    simp [List.find?_cons, ha, ih hl]

theorem set_last_fetch_cursor_self (u : String) (m : Nat) (st : DBState) :
    get_all_last_fetches (set_last_fetch u m st) u = some m := by
  unfold set_last_fetch get_all_last_fetches cursorOf
  by_cases h : st.feeds.any (fun f => f.url == some u)
  · rw [if_pos h]
    obtain ⟨f0, hf0, hp0⟩ := List.any_eq_true.mp h
    have hfind : st.feeds.find? (fun f => f.url == some u) ≠ none := by
      intro hn
      rw [List.find?_eq_none] at hn
      exact hn f0 hf0 hp0
    obtain ⟨f1, hf1⟩ := Option.ne_none_iff_exists'.mp hfind
    have hmap := find?_map_of_pred st.feeds
      (fun f => if f.url == some u then { f with lastFetch := some m } else f)
      (fun f => f.url == some u)
      (by
        intro x
        by_cases hx : x.url == some u
        · simp [hx]
        · simp [hx])
    simp only [hmap, hf1]
    have hp1 : f1.url = some u := by simpa using List.find?_some hf1
    simp [hp1]
  · rw [if_neg h]
    have hnone : st.feeds.find? (fun f => f.url == some u) = none := by
      rw [List.find?_eq_none]
      intro x hx hpx
      exact h (List.any_eq_true.mpr ⟨x, hx, hpx⟩)
    have happ := find?_append_none st.feeds
      [{ id := st.nextFeedId, name := u, url := some u, lastFetch := some m }]
      (fun f => f.url == some u) hnone
    simp only [happ]
    simp [List.find?_cons]

theorem set_last_fetch_cursor_other (u u' : String) (m : Nat) (st : DBState)
    (hne : u' ≠ u) :
    get_all_last_fetches (set_last_fetch u m st) u' =
      get_all_last_fetches st u' := by
  unfold set_last_fetch get_all_last_fetches cursorOf
  by_cases h : st.feeds.any (fun f => f.url == some u)
  · rw [if_pos h]
    have hmap := find?_map_of_pred st.feeds
      (fun f => if f.url == some u then { f with lastFetch := some m } else f)
      (fun f => f.url == some u')
      (by
        intro x
        show ((if (x.url == some u) = true then { x with lastFetch := some m }
          else x).url == some u') = (x.url == some u')
        by_cases hx : (x.url == some u) = true
        · rw [if_pos hx]
        · rw [if_neg hx])
    simp only [hmap]
    cases hf : st.feeds.find? (fun f => f.url == some u') with
    | none => rfl
    | some f1 =>
      have hp1 : f1.url = some u' := by simpa using List.find?_some hf
      have hne2 : ¬f1.url = some u := by rw [hp1]; simp [hne]
      simp [hne2]
  · rw [if_neg h]
    have happ := find?_append_single st.feeds
      { id := st.nextFeedId, name := u, url := some u, lastFetch := some m }
      (fun f => f.url == some u') (by simp [Ne.symm hne])
    simp only [happ]

theorem get_or_create_source_feeds (n : String) (st : DBState) :
    (get_or_create_source n st).2.feeds = st.feeds := by
  unfold get_or_create_source
  split <;> rfl

theorem upsertRow_feeds (a : UpsertArgs) (sid fid : Option Nat) (st : DBState) :
    (upsertRow a sid fid st).2.feeds = st.feeds := by
  unfold upsertRow
  split <;> rfl

theorem cursor_only_feeds (st st' : DBState) (h : st.feeds = st'.feeds)
    (u : String) :
    get_all_last_fetches st u = get_all_last_fetches st' u := by
  unfold get_all_last_fetches
  rw [h]

/-- `get_or_create_feed` never changes the recorded cursor of any URL: a
URL backfill only targets rows without a URL, which by `feedInv` carry no
cursor, and a created feed row carries no cursor. -/
theorem get_or_create_feed_cursor (n : String) (url : Option String)
    (sid : Option Nat) (st : DBState) (hinv : feedInv st) (u : String) :
    get_all_last_fetches (get_or_create_feed n url sid st).2 u =
      get_all_last_fetches st u := by
  unfold get_or_create_feed
  cases url with
  | none =>
    simp only [Option.none_bind]
    cases hn : st.feeds.find? (fun f => f.name == n) with
    | some f => rfl
    | none =>
      show cursorOf (st.feeds ++
        [{ id := st.nextFeedId, name := n, url := none, sourceId := sid }]) u =
        cursorOf st.feeds u
      unfold cursorOf
      rw [find?_append_single _ _ _ (by simp)]
  | some u0 =>
    simp only [Option.some_bind]
    cases hb : st.feeds.find? (fun f => f.url == some u0) with
    | some f => rfl
    | none =>
      cases hn : st.feeds.find? (fun f => f.name == n) with
      | some f =>
        show cursorOf (st.feeds.map (fun g =>
            if g.id == f.id && g.url == none then { g with url := some u0 }
            else g)) u = cursorOf st.feeds u
        by_cases hu : u = u0
        · subst hu
          unfold cursorOf
          rw [hb]
          cases hf2 : (st.feeds.map (fun g =>
              if g.id == f.id && g.url == none then { g with url := some u }
              else g)).find? (fun f0 => f0.url == some u) with
          | none => rfl
          | some z =>
            have hzmem := List.mem_of_find?_eq_some hf2
            obtain ⟨x, hx, hgx⟩ := List.mem_map.mp hzmem
            have hzu : z.url = some u := by
              simpa using List.find?_some hf2
            by_cases hcond : (x.id == f.id && x.url == none) = true
            · rw [if_pos hcond] at hgx
              have hxu : x.url = none := by
                have := (Bool.and_eq_true _ _).mp hcond
                simpa using this.2
              show z.lastFetch = none
              rw [← hgx]
              exact hinv x hx hxu
            · rw [if_neg hcond] at hgx
              rw [List.find?_eq_none] at hb
              refine absurd (by simp [hgx ▸ hzu] : (x.url == some u) = true)
                (by simpa using hb x hx)
        · have hmap := find?_map_of_pred st.feeds
            (fun g => if g.id == f.id && g.url == none then { g with url := some u0 }
              else g)
            (fun f0 => f0.url == some u)
            (by
              intro x
              show ((if (x.id == f.id && x.url == none) = true then
                { x with url := some u0 } else x).url == some u) = (x.url == some u)
              by_cases hcond : (x.id == f.id && x.url == none) = true
              · rw [if_pos hcond]
                have hxu : x.url = none := by
                  have := (Bool.and_eq_true _ _).mp hcond
                  simpa using this.2
                show (some u0 == some u) = (x.url == some u)
                simp [hxu, Ne.symm hu]
              · rw [if_neg hcond])
          unfold cursorOf
          rw [hmap]
          cases hf0 : st.feeds.find? (fun f0 => f0.url == some u) with
          | none => rfl
          | some f0 =>
            have hf0u : f0.url = some u := by simpa using List.find?_some hf0
            simp [hf0u]
      | none =>
        show cursorOf (st.feeds ++
          [{ id := st.nextFeedId, name := n, url := some u0, sourceId := sid }]) u =
          cursorOf st.feeds u
        unfold cursorOf
        by_cases hu : u = u0
        · subst hu
          rw [hb, find?_append_none _ _ _ hb]
          simp [List.find?_cons]
        · rw [find?_append_single _ _ _ (by simp [Ne.symm hu])]

theorem feedInv_gocs (n : String) (st : DBState) (h : feedInv st) :
    feedInv (get_or_create_source n st).2 := by
  intro f hf
  rw [get_or_create_source_feeds] at hf
  exact h f hf

theorem feedInv_gocf (n : String) (url : Option String) (sid : Option Nat)
    (st : DBState) (h : feedInv st) :
    feedInv (get_or_create_feed n url sid st).2 := by
  unfold get_or_create_feed
  cases url with
  | none =>
    simp only [Option.none_bind]
    cases hn : st.feeds.find? (fun f => f.name == n) with
    | some f => exact h
    | none =>
      intro f' hf'
      rcases List.mem_append.mp hf' with hf' | hf'
      · exact h f' hf'
      · rcases List.mem_singleton.mp hf' with rfl
        intro _
        rfl
  | some u0 =>
    simp only [Option.some_bind]
    cases hb : st.feeds.find? (fun f => f.url == some u0) with
    | some f => exact h
    | none =>
      cases hn : st.feeds.find? (fun f => f.name == n) with
      | some f =>
        intro f' hf'
        obtain ⟨x, hx, hgx⟩ := List.mem_map.mp hf'
        by_cases hcond : (x.id == f.id && x.url == none) = true
        · rw [if_pos hcond] at hgx
          intro hurl
          rw [← hgx] at hurl
          exact absurd hurl (by simp)
        · rw [if_neg hcond] at hgx
          exact hgx ▸ h x hx
      | none =>
        intro f' hf'
        rcases List.mem_append.mp hf' with hf' | hf'
        · exact h f' hf'
        · rcases List.mem_singleton.mp hf' with rfl
          intro hurl
          exact absurd hurl (by simp)

theorem feedInv_resolve (a : UpsertArgs) (st : DBState) (h : feedInv st) :
    feedInv (resolveProvenance a st).2 := by
  unfold resolveProvenance
  cases a.source with
  | none =>
    cases a.feed with
    | none => exact h
    | some fd => exact feedInv_gocf _ _ _ _ h
  | some s =>
    cases a.feed with
    | none => exact feedInv_gocs _ _ h
    | some fd => exact feedInv_gocf _ _ _ _ (feedInv_gocs _ _ h)

theorem feedInv_upsert (a : UpsertArgs) (st : DBState) (h : feedInv st) :
    feedInv (upsert_job a st).2 := by
  have hfe : (upsert_job a st).2.feeds = (resolveProvenance a st).2.feeds := by
    rw [show (upsert_job a st).2 =
      (upsertRow a (resolveProvenance a st).1.1 (resolveProvenance a st).1.2
        (resolveProvenance a st).2).2 from rfl, upsertRow_feeds]
  intro f hf
  rw [hfe] at hf
  exact feedInv_resolve a st h f hf

theorem resolve_cursor (a : UpsertArgs) (st : DBState) (h : feedInv st)
    (u : String) :
    get_all_last_fetches (resolveProvenance a st).2 u =
      get_all_last_fetches st u := by
  unfold resolveProvenance
  cases a.source with
  | none =>
    cases a.feed with
    | none => rfl
    | some fd => exact get_or_create_feed_cursor _ _ _ _ h u
  | some s =>
    cases a.feed with
    | none => exact cursor_only_feeds _ _ (get_or_create_source_feeds s st) u
    | some fd =>
      rw [get_or_create_feed_cursor _ _ _ _ (feedInv_gocs s st h) u]
      exact cursor_only_feeds _ _ (get_or_create_source_feeds s st) u

theorem upsert_cursor (a : UpsertArgs) (st : DBState) (h : feedInv st)
    (u : String) :
    get_all_last_fetches (upsert_job a st).2 u = get_all_last_fetches st u := by
  rw [show (upsert_job a st).2 =
    (upsertRow a (resolveProvenance a st).1.1 (resolveProvenance a st).1.2
      (resolveProvenance a st).2).2 from rfl]
  rw [cursor_only_feeds _ _ (upsertRow_feeds _ _ _ _) u]
  exact resolve_cursor a st h u

theorem feedInv_set_last_fetch (u : String) (m : Nat) (st : DBState)
    (h : feedInv st) : feedInv (set_last_fetch u m st) := by
  unfold set_last_fetch
  by_cases hany : st.feeds.any (fun f => f.url == some u)
  · rw [if_pos hany]
    intro f' hf'
    obtain ⟨x, hx, hgx⟩ := List.mem_map.mp hf'
    by_cases hcond : (x.url == some u) = true
    · rw [if_pos hcond] at hgx
      intro hurl
      rw [← hgx] at hurl
      have hxu : x.url = some u := by simpa using hcond
      exact absurd hurl (by simpa using hxu ▸ (by simp [hxu] : ¬x.url = none))
    · rw [if_neg hcond] at hgx
      exact hgx ▸ h x hx
  · rw [if_neg hany]
    intro f' hf'
    rcases List.mem_append.mp hf' with hf' | hf'
    · exact h f' hf'
    · rcases List.mem_singleton.mp hf' with rfl
      intro hurl
      exact absurd hurl (by simp)

theorem rssLoop_inv (upsertFails : Entry → Bool) (df : List Entry)
    (acc : Nat × DBState) (h : feedInv acc.2) :
    feedInv (df.foldl (rssUpsertStep upsertFails) acc).2 ∧
      ∀ u, get_all_last_fetches (df.foldl (rssUpsertStep upsertFails) acc).2 u =
        get_all_last_fetches acc.2 u := by
  induction df generalizing acc with
  | nil => exact ⟨h, fun u => rfl⟩
  | cons e df ih =>
    rw [List.foldl_cons]
    by_cases hf : upsertFails e
    · have he : rssUpsertStep upsertFails acc e = acc := by
        unfold rssUpsertStep
        rw [if_pos hf]
      rw [he]
      exact ih acc h
    · have he : (rssUpsertStep upsertFails acc e).2 =
          (upsert_job
            { title := e.title, url := e.url, description := e.description,
              postedDate := some e.postedDate, source := e.source,
              feed := e.feed, feedUrl := some e.feedUrl } acc.2).2 := by
        unfold rssUpsertStep
        rw [if_neg hf]
      obtain ⟨ih1, ih2⟩ := ih (rssUpsertStep upsertFails acc e)
        (by rw [he]; exact feedInv_upsert _ _ h)
      refine ⟨ih1, fun u => ?_⟩
      rw [ih2 u, he, upsert_cursor _ _ h u]

theorem cursorFold_notmem (df : List Entry) (ws : List String) (s : DBState)
    (u : String) (h : u ∉ ws) :
    get_all_last_fetches (ws.foldl (rssCursorStep df) s) u =
      get_all_last_fetches s u := by
  induction ws generalizing s with
  | nil => rfl
  | cons w ws ih =>
    have hne : u ≠ w := fun he => h (he ▸ List.mem_cons_self w ws)
    have hnw : u ∉ ws := fun hm => h (List.mem_cons_of_mem w hm)
    rw [List.foldl_cons, ih _ hnw]
    unfold rssCursorStep
    by_cases hrows : (df.filter (fun e => e.feedUrl == w)).isEmpty
    · rw [if_pos hrows]
    · rw [if_neg hrows]
      exact set_last_fetch_cursor_other w u _ s hne

theorem cursorFold_mem (df : List Entry) (ws : List String) (s : DBState)
    (u : String) (h : u ∈ ws) (hnd : ws.Nodup) :
    get_all_last_fetches (ws.foldl (rssCursorStep df) s) u =
      if (df.filter (fun e => e.feedUrl == u)).isEmpty then
        get_all_last_fetches s u
      else some (maxDate ((df.filter (fun e => e.feedUrl == u)).map
        Entry.postedDate)) := by
  induction ws generalizing s with
  | nil => exact absurd h (List.not_mem_nil u)
  | cons w ws ih =>
    rw [List.foldl_cons]
    rcases List.nodup_cons.mp hnd with ⟨hwn, hnd'⟩
    rcases List.mem_cons.mp h with rfl | hm
    · have hun : u ∉ ws := hwn
      rw [cursorFold_notmem df ws _ u hun]
      unfold rssCursorStep
      by_cases hrows : (df.filter (fun e => e.feedUrl == u)).isEmpty
      · rw [if_pos hrows, if_pos hrows]
      · rw [if_neg hrows, if_neg hrows]
        exact set_last_fetch_cursor_self u _ s
    · have hne : u ≠ w := fun he => hwn (he ▸ hm)
      rw [ih _ hm hnd']
      unfold rssCursorStep
      by_cases hrows : (df.filter (fun e => e.feedUrl == w)).isEmpty
      · rw [if_pos hrows]
      · rw [if_neg hrows]
        rw [set_last_fetch_cursor_other w u _ s hne]

theorem le_foldl_max (l : List Nat) (acc : Nat) : acc ≤ l.foldl Nat.max acc := by
  induction l generalizing acc with
  | nil => exact le_refl acc
  | cons x l ih => exact le_trans (Nat.le_max_left acc x) (ih (Nat.max acc x))

theorem mem_le_foldl_max (l : List Nat) (x : Nat) (h : x ∈ l) :
    ∀ acc, x ≤ l.foldl Nat.max acc := by
  induction l with
  | nil => exact absurd h (List.not_mem_nil x)
  | cons y l ih =>
    intro acc
    rcases List.mem_cons.mp h with rfl | hm
    · exact le_trans (Nat.le_max_right acc x) (le_foldl_max l (Nat.max acc x))
    · exact ih hm (Nat.max acc y)

theorem mem_le_maxDate (l : List Nat) (x : Nat) (h : x ∈ l) : x ≤ maxDate l :=
  mem_le_foldl_max l x h 0

theorem dropDup_subset (l : List Entry) (seen : List (String × String)) :
    ∀ e ∈ dropDupTitleUrl l seen, e ∈ l := by
  induction l generalizing seen with
  | nil => intro e he; exact absurd he (List.not_mem_nil e)
  | cons x l ih =>
    intro e he
    unfold dropDupTitleUrl at he
    by_cases hc : seen.contains (x.title, x.url)
    · rw [if_pos hc] at he
      exact List.mem_cons_of_mem x (ih seen e he)
    · rw [if_neg hc] at he
      rcases List.mem_cons.mp he with rfl | he
      · exact List.mem_cons_self e l
      · exact List.mem_cons_of_mem x (ih _ e he)

theorem df_mem (feedUrls : List String) (since : String → Option Nat)
    (entriesOf : String → List Entry) (e : Entry)
    (he : e ∈ fetch_and_parse_jobs feedUrls since entriesOf) :
    ∃ w ∈ feedUrls, e ∈ fetchFeed since entriesOf w := by
  unfold fetch_and_parse_jobs at he
  have h1 := dropDup_subset _ _ e he
  have h2 : e ∈ (feedUrls.map (fetchFeed since entriesOf)).flatten :=
    (stableSort_perm _ _).subset h1
  obtain ⟨l', hl', he'⟩ := List.mem_flatten.mp h2
  obtain ⟨w, hw, hwl⟩ := List.mem_map.mp hl'
  exact ⟨w, hw, hwl ▸ he'⟩

theorem fetchFeed_mem (since : String → Option Nat)
    (entriesOf : String → List Entry) (w : String) (e : Entry)
    (he : e ∈ fetchFeed since entriesOf w) :
    e ∈ entriesOf w ∧ ∀ c, since w = some c → c < e.postedDate := by
  unfold fetchFeed at he
  cases hs : since w with
  | none =>
    rw [hs] at he
    exact ⟨he, fun c hc => absurd hc (by simp)⟩
  | some c0 =>
    rw [hs] at he
    rcases List.mem_filter.mp he with ⟨hm, hlt⟩
    refine ⟨hm, fun c hc => ?_⟩
    cases hc
    exact of_decide_eq_true hlt

/-- C4 counterexample: a pass whose single new entry fails to upsert (the
exception is caught and the loop continues) still advances the feed's
cursor from 10 to 20 — the cursor is **not** advanced "only after every
entry newer than the previous cursor has been durably upserted". -/
theorem c4_cursor_advance_counterexample :
    get_all_last_fetches rssState0 "F" = some 10 ∧
    10 < rssEntry.postedDate ∧
    (run_rss_fetch ["F"] rssEntriesOf (fun _ => true) rssState0).2.jobs = [] ∧
    get_all_last_fetches
      (run_rss_fetch ["F"] rssEntriesOf (fun _ => true) rssState0).2 "F" =
        some 20 :=
  ⟨by decide, by decide, by decide, by decide⟩

/-- C4 amended: the cursor for a feed is advanced at the end of the pass
whenever the pass fetched rows for that feed, regardless of individual
upsert failures (which are caught and skipped); its new value is the
maximum `posted_date` among the feed's fetched rows (not wall-clock time),
and — because the fetch pre-filters entries to those strictly newer than
the previous cursor — it is strictly greater than any previous cursor
value, hence monotonically non-decreasing across passes.  A feed with no
fetched rows keeps its cursor unchanged. -/
theorem c4_cursor_amended (feedUrls : List String)
    (entriesOf : String → List Entry) (fails : Entry → Bool) (st : DBState)
    (hnd : feedUrls.Nodup)
    (hfu : ∀ w ∈ feedUrls, ∀ e ∈ entriesOf w, e.feedUrl = w)
    (hinv : ∀ f ∈ st.feeds, f.url = none → f.lastFetch = none)
    (u : String) (hu : u ∈ feedUrls) :
    (rssRows feedUrls entriesOf st u ≠ [] →
      get_all_last_fetches (run_rss_fetch feedUrls entriesOf fails st).2 u =
        some (maxDate ((rssRows feedUrls entriesOf st u).map Entry.postedDate)) ∧
      ∀ c : Nat, get_all_last_fetches st u = some c →
        c < maxDate ((rssRows feedUrls entriesOf st u).map Entry.postedDate)) ∧
    (rssRows feedUrls entriesOf st u = [] →
      get_all_last_fetches (run_rss_fetch feedUrls entriesOf fails st).2 u =
        get_all_last_fetches st u) := by
  set df := fetch_and_parse_jobs feedUrls (get_all_last_fetches st) entriesOf
    with hdf
  have hrw : rssRows feedUrls entriesOf st u =
      df.filter (fun e => e.feedUrl == u) := rfl
  by_cases hempty : df.isEmpty
  · have hrun : run_rss_fetch feedUrls entriesOf fails st = ((0, 0), st) := by
      unfold run_rss_fetch
      rw [← hdf, if_pos hempty]
    have hdfnil : df = [] := List.isEmpty_iff.mp hempty
    have hrows : rssRows feedUrls entriesOf st u = [] := by
      rw [hrw, hdfnil]
      rfl
    exact ⟨fun hne => absurd hrows hne, fun _ => by rw [hrun]⟩
  · have hrun : run_rss_fetch feedUrls entriesOf fails st =
        ((df.length, (df.foldl (rssUpsertStep fails) (0, st)).1),
          feedUrls.foldl (rssCursorStep df)
            (df.foldl (rssUpsertStep fails) (0, st)).2) := by
      unfold run_rss_fetch
      rw [← hdf, if_neg hempty]
    have hloop := rssLoop_inv fails df (0, st) hinv
    have hfold := cursorFold_mem df feedUrls
      (df.foldl (rssUpsertStep fails) (0, st)).2 u hu hnd
    constructor
    · intro hne
      have hne' : ¬((df.filter (fun e => e.feedUrl == u)).isEmpty = true) := by
        rw [← hrw]
        intro hcontra
        exact hne (List.isEmpty_iff.mp hcontra)
      constructor
      · rw [hrun]
        show get_all_last_fetches
          (feedUrls.foldl (rssCursorStep df)
            (df.foldl (rssUpsertStep fails) (0, st)).2) u = _
        rw [hfold, if_neg hne', hrw]
      · intro c hc
        obtain ⟨e, hemem⟩ :=
          List.exists_mem_of_ne_nil (rssRows feedUrls entriesOf st u) hne
        have he2 := List.mem_filter.mp (hrw ▸ hemem)
        obtain ⟨w, hw, hef⟩ := df_mem feedUrls _ entriesOf e he2.1
        obtain ⟨hent, hnewer⟩ := fetchFeed_mem _ entriesOf w e hef
        have hwu : w = u := by
          have h1 : e.feedUrl = w := hfu w hw e hent
          have h2 : e.feedUrl = u := by simpa using he2.2
          rw [← h1, h2]
        have hlt : c < e.postedDate := hnewer c (hwu ▸ hc)
        have hle : e.postedDate ≤
            maxDate ((rssRows feedUrls entriesOf st u).map Entry.postedDate) :=
          mem_le_maxDate _ _ (List.mem_map_of_mem Entry.postedDate hemem)
        omega
    · intro hnil
      have hempty2 : (df.filter (fun e => e.feedUrl == u)).isEmpty = true := by
        rw [← hrw, hnil]
        rfl
      rw [hrun]
      show get_all_last_fetches
        (feedUrls.foldl (rssCursorStep df)
          (df.foldl (rssUpsertStep fails) (0, st)).2) u = _
      rw [hfold, if_pos hempty2, hloop.2 u]

/-- Witness for C4's amended theorem on a concrete one-feed pass with a
succeeding upsert. -/
theorem c4_witness :
    rssRows ["F"] rssEntriesOf rssState0 "F" ≠ [] ∧
    get_all_last_fetches
      (run_rss_fetch ["F"] rssEntriesOf (fun _ => false) rssState0).2 "F" =
      some (maxDate ((rssRows ["F"] rssEntriesOf rssState0 "F").map
        Entry.postedDate)) := by
  have h := c4_cursor_amended ["F"] rssEntriesOf (fun _ => false) rssState0
    (by decide) (by decide) (by decide) "F" (by decide)
  exact ⟨by decide, (h.1 (by decide)).1⟩

end JobSearch
